import Mathlib

/-!
# Verification of the batch OCR orchestration engine

A shallow embedding of `src/helpers/openl-ocr.js`: the lock manager, the
proxy pool manager (`ProxyManager`), the resilient fetch client
(`fetchWithProxy`), the per-resource OCR task (`performOCR` and
`performOCRDirect`), the batch controller (`processImagesWithPool`,
`processImagesWithPoolDirect`, `createProgressFile`, `createCompletionFile`,
`main`), and an interleaving model of the worker pool.

Filesystem state is a pair of total maps (presence and mtime, keyed by the
path string); fallible environment operations (writes, unlinks, stats and
reads that may throw) are driven by Boolean oracles in `Env`; network fetch
outcomes are consumed from explicit oracle sequences carried in `St`.
JavaScript floating-point divisions in age computations are modelled with
exact rational arithmetic.  Observable side effects (lock-file creation,
worker dispatch, proxied and direct fetches, proxy failure marking, backoff
sleeps, progress-marker writes) are recorded in an event list.
-/

set_option maxHeartbeats 1000000

namespace OpenlOcr

/-- Filesystem state: which paths exist and their modification time in
epoch milliseconds (meaningful only for present paths). -/
structure FileSys where
  present : String → Bool
  mtimeMs : String → Int

/-- Environment oracles: the current clock (`Date.now()`), and which
filesystem operations throw.  `statFails p` means `fs.statSync p` throws,
`writeFails p` means `fs.writeFileSync p` throws, `unlinkFails p` means
`fs.unlinkSync p` throws, `readFails p` means `fs.readFileSync p` throws. -/
structure Env where
  now : Int
  statFails : String → Bool
  writeFails : String → Bool
  unlinkFails : String → Bool
  readFails : String → Bool

/-- Configuration record, after `parseArgs` (mirrors `DEFAULT_CONFIG` shape). -/
structure Config where
  batchSize : Nat
  batchDelay : Nat
  fileExtensions : List String
  staleLockTime : Nat
  useProxy : Bool
  proxyTimeout : Nat
  proxyRetries : Nat
  proxyRefreshInterval : Int

/-- One proxy entry: `{ip, port, fails, lastUsed}`. -/
structure Proxy where
  ip : String
  port : String
  fails : Nat
  lastUsed : Int
deriving DecidableEq, Repr

/-- In-memory `ProxyManager` state (`this.proxies`, `this.currentIndex`,
`this.lastRefresh`). -/
structure PMState where
  proxies : List Proxy
  currentIndex : Nat
  lastRefresh : Int
deriving DecidableEq, Repr

/-- Body of an HTTP response as seen by `performOCR`:
`textThrow` models `response.text()` throwing, `parseFail` models
`JSON.parse` throwing, `missingText` models a parsed object without a
`text` field, `text s` a well-formed payload. -/
inductive RespBody where
  | textThrow
  | parseFail
  | missingText
  | text (s : String)
deriving DecidableEq, Repr

/-- An HTTP response (`ok` is the 2xx flag of `response.ok`). -/
structure Resp where
  ok : Bool
  status : Nat
  body : RespBody
deriving DecidableEq, Repr

/-- What loading and parsing the proxy cache file yields during
`ProxyManager.init`: file absent, present but unparseable (JSON.parse
throws), or parsed `{timestamp, proxies}` content. -/
inductive CacheLoad where
  | absent
  | corrupt
  | content (ts : Int) (proxies : List Proxy)
deriving DecidableEq, Repr

/-- Observable events of a run. `fetchProxied`/`fetchDirect` carry the
outcome of the network exchange: `none` is a transport error (the fetch
promise rejected), `some r` a received response. -/
inductive Ev where
  | wroteLock (imagePath : String)
  | processing (imagePath : String)
  | gotProxy (ip port : String)
  | proxyNull
  | fetchProxied (ip port : String) (r : Option Resp)
  | fetchDirect (r : Option Resp)
  | markedFailed (ip port : String)
  | slept
  | wroteProgress
deriving DecidableEq, Repr

/-- Mutable world threaded through the engine: the filesystem, the proxy
manager, and the oracle sequences for the two kinds of network calls.
`refreshSeq` items are outcomes of one `refreshProxies` scrape: `none` if
the scrape throws, `some l` the list of HTTPS `(ip, port)` rows parsed from
the page.  `fetchSeq` items are outcomes of one `fetch` of the OCR API.
`cacheLoad` is what reading the proxy cache file yields in `init`. -/
structure St where
  fs : FileSys
  pm : PMState
  refreshSeq : List (Option (List (String × String)))
  fetchSeq : List (Option Resp)
  cacheLoad : CacheLoad

/-- `fs.writeFileSync p` (successful case): path becomes present with the
current clock as modification time. -/
def fsSet (fs : FileSys) (p : String) (t : Int) : FileSys :=
  { present := fun q => q = p || fs.present q
    mtimeMs := fun q => if q = p then t else fs.mtimeMs q }

/-- `fs.unlinkSync p` (successful case). -/
def fsRemove (fs : FileSys) (p : String) : FileSys :=
  { present := fun q => q ≠ p && fs.present q
    mtimeMs := fs.mtimeMs }

/-! ## Path helpers (`path.basename`, `path.extname`, `path.dirname`, `path.join`)

These are defined by structural recursion over the character list of the
path so that all concrete instances compute inside the kernel. -/

/-- Split a character list at every occurrence of `c` (the list of chunks
is never empty). -/
def splitOnChar (c : Char) : List Char → List (List Char)
  | [] => [[]]
  | x :: xs =>
    match splitOnChar c xs with
    | [] => [[x]]
    | h :: t => if x = c then [] :: h :: t else (x :: h) :: t

/-- `path.basename p`: the final component of the path. -/
def basename (p : String) : String :=
  (((splitOnChar '/' p.data).reverse).headD []).asString

/-- `path.extname p`: from the last `.` of the basename to the end, empty
when the basename has no `.` past its first character. -/
def extname (p : String) : String :=
  let b := (basename p).data
  let parts := splitOnChar '.' b
  if parts.length ≤ 1 then ""
  else if parts.length = 2 && parts.headD ['x'] = [] then ""
  else ('.' :: (parts.reverse).headD []).asString

/-- `path.basename p ext`: the basename with a trailing `ext` stripped. -/
def basenameExt (p ext : String) : String :=
  let b := (basename p).data
  if ext ≠ "" && b ≠ ext.data && ext.data.isSuffixOf b then
    (b.take (b.length - ext.data.length)).asString
  else b.asString

/-- `path.dirname p`: the path without its final component (`.` when there
is none). -/
def dirname (p : String) : String :=
  let parts := splitOnChar '/' p.data
  if parts.length ≤ 1 then "."
  else (List.intercalate ['/'] (parts.take (parts.length - 1))).asString

/-- `path.join d f` for the already-normalized two-component joins used by
the script. -/
def pathJoin (d f : String) : String :=
  if d = "." then f else d ++ "/" ++ f

/-- The sibling result artifact's file name:
`path.basename(imagePath, path.extname(imagePath)) + ".txt"`. -/
def txtName (imagePath : String) : String :=
  basenameExt imagePath (extname imagePath) ++ ".txt"

/-- The sibling result artifact's full path:
`path.join(path.dirname(imagePath), txtName)`. -/
def txtFullPath (imagePath : String) : String :=
  pathJoin (dirname imagePath) (txtName imagePath)

/-! ## Lock manager -/

/-- `getLockFilePath`: the lock marker is the resource path plus `.lock`. -/
def getLockFilePath (imagePath : String) : String :=
  imagePath ++ ".lock"

/-- `isFileLocked`: bare existence check of the lock marker. -/
def isFileLocked (fs : FileSys) (imagePath : String) : Bool :=
  fs.present (getLockFilePath imagePath)

/-- `isLockStale`: false when the marker is absent; false when reading its
stats throws; otherwise compares the age in minutes (an exact-rational
model of the floating-point `(Date.now() - stats.mtimeMs) / (1000 * 60)`)
strictly against the staleness window. -/
def isLockStale (env : Env) (fs : FileSys) (lockFilePath : String)
    (staleLockTimeMinutes : Nat) : Bool :=
  if ¬ fs.present lockFilePath then false
  else if env.statFails lockFilePath then false
  else
    let lockAge : ℚ := ((env.now - fs.mtimeMs lockFilePath : Int) : ℚ) / (1000 * 60)
    decide (lockAge > (staleLockTimeMinutes : ℚ))

/-- `createLockFile`: writes `processId:now` to the marker, reporting
failure when the write throws.  Emits `wroteLock` on success. -/
def createLockFile (env : Env) (imagePath : String) (fs : FileSys) :
    Bool × FileSys × List Ev :=
  let lockFilePath := getLockFilePath imagePath
  if env.writeFails lockFilePath then (false, fs, [])
  else (true, fsSet fs lockFilePath env.now, [Ev.wroteLock imagePath])

/-- `removeLockFile`: unlinks the marker if present; reports failure when
the unlink throws. -/
def removeLockFile (env : Env) (imagePath : String) (fs : FileSys) :
    Bool × FileSys :=
  let lockFilePath := getLockFilePath imagePath
  if fs.present lockFilePath then
    if env.unlinkFails lockFilePath then (false, fs)
    else (true, fsRemove fs lockFilePath)
  else (true, fs)

/-- `acquireLock`: create the marker when absent; when present and stale,
remove it and create a fresh one; otherwise report the resource busy. -/
def acquireLock (env : Env) (imagePath processId : String)
    (staleLockTimeMinutes : Nat) (fs : FileSys) : Bool × FileSys × List Ev :=
  let _ := processId
  let lockFilePath := getLockFilePath imagePath
  if ¬ fs.present lockFilePath then
    createLockFile env imagePath fs
  else if isLockStale env fs lockFilePath staleLockTimeMinutes then
    let (_, fs₁) := removeLockFile env imagePath fs
    createLockFile env imagePath fs₁
  else (false, fs, [])

/-! ## Proxy pool manager (`ProxyManager`) -/

/-- `this.proxyFile`. -/
def proxyFile : String := "available_proxies.json"

/-- `refreshProxies`: consume one scrape outcome.  On a successful scrape
with at least one HTTPS row, install the parsed entries (each with
`fails = 0`, `lastUsed = 0`), reset `currentIndex`, stamp `lastRefresh`,
and persist the cache file; a scrape failure, an empty row set, or a
cache-write throw make the method throw (`false`).  Note that a cache-write
throw happens after the in-memory state was already replaced. -/
def refreshProxies (env : Env) (st : St) : Bool × St :=
  match st.refreshSeq with
  | [] => (false, st)
  | r :: rest =>
    let st₁ : St := { st with refreshSeq := rest }
    match r with
    | none => (false, st₁)
    | some rows =>
      if rows.isEmpty then (false, st₁)
      else
        let entries := rows.map (fun q => Proxy.mk q.1 q.2 0 0)
        let st₂ : St := { st₁ with pm := ⟨entries, 0, env.now⟩ }
        if env.writeFails proxyFile then (false, st₂)
        else (true, { st₂ with fs := fsSet st₂.fs proxyFile env.now })

/-- Result of the round-robin scan inside `getProxy`: a selected entry
(with the updated pool and `currentIndex`), exhaustion after a full cycle,
or the `TypeError` thrown when `this.proxies[this.currentIndex]` is out of
range (the index survives a pool shrink in `markProxyFailed`). -/
inductive ScanRes where
  | found (p : Proxy) (pool : List Proxy) (nextIdx : Nat)
  | exhausted (nextIdx : Nat)
  | err (nextIdx : Nat)
deriving DecidableEq, Repr

/-- The `while (attemptsLeft > 0)` loop of `getProxy`: step the index
round-robin, skip entries with `fails ≥ 3`, stamp `lastUsed` on the
selected entry. -/
def scanLoop (env : Env) (pool : List Proxy) : Nat → Nat → ScanRes
  | idx, 0 => .exhausted idx
  | idx, fuel + 1 =>
    match pool[idx]? with
    | none => .err ((idx + 1) % pool.length)
    | some p =>
      let idx' := (idx + 1) % pool.length
      if 3 ≤ p.fails then scanLoop env pool idx' fuel
      else .found { p with lastUsed := env.now } (pool.set idx { p with lastUsed := env.now }) idx'

/-- The selection phase of `getProxy`, entered with the pool as it stands:
scan round-robin; when every entry has failed too many times, reset all
fail counts and return the first entry. -/
def scanPhase (env : Env) (st : St) : Except Unit (Option Proxy) × St :=
  match scanLoop env st.pm.proxies st.pm.currentIndex st.pm.proxies.length with
  | .found p pool ni => (.ok (some p), { st with pm := ⟨pool, ni, st.pm.lastRefresh⟩ })
  | .err ni => (.error (), { st with pm := { st.pm with currentIndex := ni } })
  | .exhausted ni =>
    let reset := st.pm.proxies.map (fun q => { q with fails := 0 })
    match reset with
    | [] => (.ok none, { st with pm := { st.pm with proxies := [], currentIndex := ni } })
    | p₀ :: _ => (.ok (some p₀), { st with pm := ⟨reset, ni, st.pm.lastRefresh⟩ })

/-- The body of `getProxy` after the interval check: refresh when the pool
is empty (a refresh throw is caught and yields `null`; a pool still empty
after the refresh also yields `null`), then select. -/
def getProxyMain (env : Env) (st : St) : Except Unit (Option Proxy) × St :=
  if st.pm.proxies.isEmpty then
    match refreshProxies env st with
    | (false, st₁) => (.ok none, st₁)
    | (true, st₁) =>
      if st₁.pm.proxies.isEmpty then (.ok none, st₁)
      else scanPhase env st₁
  else scanPhase env st

/-- `getProxy`: refresh first when the cached list has outlived the
refresh interval (a throw there propagates), then run the main body. -/
def getProxy (env : Env) (cfg : Config) (st : St) : Except Unit (Option Proxy) × St :=
  if env.now - st.pm.lastRefresh > cfg.proxyRefreshInterval then
    match refreshProxies env st with
    | (false, st₁) => (.error (), st₁)
    | (true, st₁) => getProxyMain env st₁
  else getProxyMain env st

/-- `markProxyFailed`: find the entry by ip and port, increment its fail
count, evict it at 5 failures, and persist the cache; the Boolean reports
whether the unguarded cache write threw.  A missing entry is a no-op. -/
def markProxyFailed (env : Env) (p : Proxy) (st : St) : Bool × St × List Ev :=
  match st.pm.proxies.findIdx? (fun q => q.ip = p.ip && q.port = p.port) with
  | none => (false, st, [])
  | some i =>
    match st.pm.proxies[i]? with
    | none => (false, st, [])
    | some q =>
      let q' : Proxy := { q with fails := q.fails + 1 }
      let pool := if 5 ≤ q'.fails then (st.pm.proxies.set i q').eraseIdx i
                  else st.pm.proxies.set i q'
      let st₁ : St := { st with pm := { st.pm with proxies := pool } }
      if env.writeFails proxyFile then (true, st₁, [Ev.markedFailed p.ip p.port])
      else (false, { st₁ with fs := fsSet st₁.fs proxyFile env.now },
            [Ev.markedFailed p.ip p.port])

/-- `ProxyManager.init`: load the cache when present, parseable, younger
than 30 minutes and nonempty; otherwise scrape afresh, and on any throw
leave the pool empty.  The cache age test is the exact-rational model of
`(Date.now() - proxyData.timestamp) / 1000 < 1800`. -/
def pmInit (env : Env) (st : St) : St :=
  match st.cacheLoad with
  | .corrupt => { st with pm := { st.pm with proxies := [] } }
  | .content ts l =>
    if decide (((env.now - ts : Int) : ℚ) / 1000 < 1800) && ¬ l.isEmpty then
      { st with pm := ⟨l, st.pm.currentIndex, ts⟩ }
    else
      match refreshProxies env st with
      | (true, st₁) => st₁
      | (false, st₁) => { st₁ with pm := { st₁.pm with proxies := [] } }
  | .absent =>
    match refreshProxies env st with
    | (true, st₁) => st₁
    | (false, st₁) => { st₁ with pm := { st₁.pm with proxies := [] } }

/-! ## Resilient fetch client (`ProxyManager.fetchWithProxy`) -/

/-- One `fetch` of the OCR endpoint: consume the next oracle outcome
(`none` = the promise rejects with a transport error).  An exhausted
oracle behaves as a transport error. -/
def fetchOnce (st : St) : Option Resp × St :=
  match st.fetchSeq with
  | [] => (none, st)
  | o :: rest => (o, { st with fetchSeq := rest })

/-- Outcome of the retry loop of `fetchWithProxy`: an early return or
throw, or falling through to the final direct attempt. -/
inductive LoopRes where
  | ret (r : Except Unit Resp)
  | fellThrough
deriving Repr

/-- The catch block of one failed attempt: mark the current proxy failed
when there is one (a cache-write throw inside `markProxyFailed` propagates
and aborts the whole call), sleep the fixed backoff, and iterate. -/
def fwpFail (env : Env)
    (loop : Option Proxy → St → LoopRes × St × List Ev)
    (lastProxy : Option Proxy) (st : St) : LoopRes × St × List Ev :=
  match lastProxy with
  | none =>
    let (res, st₁, tr) := loop none st
    (res, st₁, Ev.slept :: tr)
  | some p =>
    match markProxyFailed env p st with
    | (true, st₁, trm) => (.ret (.error ()), st₁, trm)
    | (false, st₁, trm) =>
      let (res, st₂, tr) := loop (some p) st₁
      (res, st₂, trm ++ Ev.slept :: tr)

/-- The `for (attempt...)` loop of `fetchWithProxy`.  The `lastProxy`
accumulator models the `proxy` variable declared outside the loop: when
`getProxy` itself throws, the catch block still sees the previous
iteration's proxy.  A `null` pool short-circuits to a direct `fetch`
whose raw result is returned (a rejection propagates). -/
def fwpLoop (env : Env) (cfg : Config) : Nat → Option Proxy → St → LoopRes × St × List Ev
  | 0, _, st => (.fellThrough, st, [])
  | fuel + 1, lastProxy, st =>
    match getProxy env cfg st with
    | (.error _, st₁) => fwpFail env (fwpLoop env cfg fuel) lastProxy st₁
    | (.ok none, st₁) =>
      let (o, st₂) := fetchOnce st₁
      match o with
      | none => (.ret (.error ()), st₂, [Ev.proxyNull, Ev.fetchDirect none])
      | some r => (.ret (.ok r), st₂, [Ev.proxyNull, Ev.fetchDirect (some r)])
    | (.ok (some p), st₁) =>
      let (o, st₂) := fetchOnce st₁
      match o with
      | some r =>
        if r.ok then
          (.ret (.ok r), st₂, [Ev.gotProxy p.ip p.port, Ev.fetchProxied p.ip p.port (some r)])
        else
          let (res, st₃, tr) := fwpFail env (fwpLoop env cfg fuel) (some p) st₂
          (res, st₃, Ev.gotProxy p.ip p.port :: Ev.fetchProxied p.ip p.port (some r) :: tr)
      | none =>
        let (res, st₃, tr) := fwpFail env (fwpLoop env cfg fuel) (some p) st₂
        (res, st₃, Ev.gotProxy p.ip p.port :: Ev.fetchProxied p.ip p.port none :: tr)

/-- `fetchWithProxy`: with proxying disabled the raw direct `fetch` result
is returned; otherwise run up to `retries` proxied attempts and finish
with one final direct attempt that throws on a transport error or a
non-2xx status. -/
def fetchWithProxy (env : Env) (cfg : Config) (retries : Nat) (st : St) :
    Except Unit Resp × St × List Ev :=
  if ¬ cfg.useProxy then
    let (o, st₁) := fetchOnce st
    match o with
    | none => (.error (), st₁, [Ev.fetchDirect none])
    | some r => (.ok r, st₁, [Ev.fetchDirect (some r)])
  else
    match fwpLoop env cfg retries none st with
    | (.ret r, st₁, tr) => (r, st₁, tr)
    | (.fellThrough, st₁, tr) =>
      let (o, st₂) := fetchOnce st₁
      match o with
      | none => (.error (), st₂, tr ++ [Ev.fetchDirect none])
      | some r =>
        if r.ok then (.ok r, st₂, tr ++ [Ev.fetchDirect (some r)])
        else (.error (), st₂, tr ++ [Ev.fetchDirect (some r)])

/-! ## Per-resource OCR task (`performOCR`, `performOCRDirect`) -/

/-- The shape of the per-resource outcome object. -/
structure OCRResult where
  success : Bool
  locked : Bool := false
  skipped : Bool := false
  filename : String
  outputFile : Option String := none
  error : Option String := none
deriving DecidableEq, Repr

/-- The tail of `performOCR` shared by the proxied and direct variants,
entered with a received response: the non-2xx branch removes the lock and
throws (the outer catch removes it again), the inner parse `try` removes
the lock on every outcome, and a successful parse persists the artifact
before releasing the lock.  A throw while writing the artifact lands in
the inner catch. -/
def handleResponse (env : Env) (imagePath : String) (r : Resp) (st : St) :
    OCRResult × St :=
  let filename := basename imagePath
  if ¬ r.ok then
    let (_, fs₁) := removeLockFile env imagePath st.fs
    let (_, fs₂) := removeLockFile env imagePath fs₁
    ({ success := false, filename := filename, error := some "HTTP error! Status" },
     { st with fs := fs₂ })
  else
    match r.body with
    | .textThrow =>
      let (_, fs₁) := removeLockFile env imagePath st.fs
      ({ success := false, filename := filename,
         error := some "Error parsing API response" }, { st with fs := fs₁ })
    | .parseFail =>
      let (_, fs₁) := removeLockFile env imagePath st.fs
      ({ success := false, filename := filename,
         error := some "Error parsing API response" }, { st with fs := fs₁ })
    | .missingText =>
      let (_, fs₁) := removeLockFile env imagePath st.fs
      let (_, fs₂) := removeLockFile env imagePath fs₁
      ({ success := false, filename := filename,
         error := some "Error parsing API response: missing text field" },
       { st with fs := fs₂ })
    | .text _ =>
      let outputPath := txtFullPath imagePath
      if env.writeFails outputPath then
        let (_, fs₁) := removeLockFile env imagePath st.fs
        ({ success := false, filename := filename,
           error := some "Error parsing API response: write failed" },
         { st with fs := fs₁ })
      else
        let fs₁ := fsSet st.fs outputPath env.now
        let (_, fs₂) := removeLockFile env imagePath fs₁
        ({ success := true, filename := filename, outputFile := some (txtName imagePath) },
         { st with fs := fs₂ })

/-- `performOCR`: acquire the lock (a busy resource returns the `locked`
outcome), read the image (a read throw lands in the outer catch), run the
exchange through `fetchWithProxy` (a throw lands in the outer catch, which
removes the lock and returns a failure), then handle the response. -/
def performOCR (env : Env) (cfg : Config) (imagePath processId : String)
    (st : St) : OCRResult × St × List Ev :=
  let filename := basename imagePath
  let (acq, fs₀, tr₀) := acquireLock env imagePath processId cfg.staleLockTime st.fs
  let st₀ : St := { st with fs := fs₀ }
  if ¬ acq then
    ({ success := false, locked := true, filename := filename,
       error := some "Image is being processed by another instance" }, st₀, tr₀)
  else if env.readFails imagePath then
    let (_, fs₁) := removeLockFile env imagePath st₀.fs
    ({ success := false, filename := filename, error := some "read failed" },
     { st₀ with fs := fs₁ }, tr₀)
  else
    let (fres, st₁, tr₁) := fetchWithProxy env cfg cfg.proxyRetries st₀
    match fres with
    | .error _ =>
      let (_, fs₂) := removeLockFile env imagePath st₁.fs
      ({ success := false, filename := filename, error := some "fetch failed" },
       { st₁ with fs := fs₂ }, tr₀ ++ tr₁)
    | .ok r =>
      let (res, st₂) := handleResponse env imagePath r st₁
      (res, st₂, tr₀ ++ tr₁)

/-- `performOCRDirect`: the no-proxy variant; identical except the
exchange is a single raw `fetch` whose rejection lands in the outer
catch. -/
def performOCRDirect (env : Env) (cfg : Config) (imagePath processId : String)
    (st : St) : OCRResult × St × List Ev :=
  let filename := basename imagePath
  let (acq, fs₀, tr₀) := acquireLock env imagePath processId cfg.staleLockTime st.fs
  let st₀ : St := { st with fs := fs₀ }
  if ¬ acq then
    ({ success := false, locked := true, filename := filename,
       error := some "Image is being processed by another instance" }, st₀, tr₀)
  else if env.readFails imagePath then
    let (_, fs₁) := removeLockFile env imagePath st₀.fs
    ({ success := false, filename := filename, error := some "read failed" },
     { st₀ with fs := fs₁ }, tr₀)
  else
    let (o, st₁) := fetchOnce st₀
    match o with
    | none =>
      let (_, fs₂) := removeLockFile env imagePath st₁.fs
      ({ success := false, filename := filename, error := some "fetch failed" },
       { st₁ with fs := fs₂ }, tr₀ ++ [Ev.fetchDirect none])
    | some r =>
      let (res, st₂) := handleResponse env imagePath r st₁
      (res, st₂, tr₀ ++ [Ev.fetchDirect (some r)])

/-! ## Batch run controller (`processImagesWithPool` and friends) -/

/-- The aggregate of one run (the `results` object of the pool). -/
structure Results where
  successful : Nat
  failed : Nat
  skipped : Nat
  locked : Nat
  details : List OCRResult
deriving DecidableEq, Repr

/-- The `Skipped` detail entry pushed by the pre-filter. -/
def skipEntry (imagePath : String) : OCRResult :=
  { success := true, skipped := true, filename := basename imagePath,
    outputFile := some (txtName imagePath) }

/-- The `Locked` detail entry pushed by the pre-filter. -/
def lockedEntry (imagePath : String) : OCRResult :=
  { success := false, locked := true, filename := basename imagePath,
    error := some "Being processed by another instance" }

/-- The initial filtering loop of `processImagesWithPool`: a resource with
an existing sibling artifact is `Skipped`; otherwise a resource whose lock
marker exists (staleness is not consulted here) is `Locked`; the rest are
pending. -/
def classify (fs : FileSys) : List String → Results × List String
  | [] => (⟨0, 0, 0, 0, []⟩, [])
  | p :: rest =>
    let (res, pending) := classify fs rest
    if fs.present (txtFullPath p) then
      ({ res with skipped := res.skipped + 1, details := skipEntry p :: res.details },
       pending)
    else if isFileLocked fs p then
      ({ res with locked := res.locked + 1, details := lockedEntry p :: res.details },
       pending)
    else (res, p :: pending)

/-- The tallying step of the worker: exactly one of the three counters is
incremented per completed task, and the outcome is appended to `details`. -/
def tally (res : Results) (r : OCRResult) : Results :=
  if r.success then
    { res with successful := res.successful + 1, details := res.details ++ [r] }
  else if r.locked then
    { res with locked := res.locked + 1, details := res.details ++ [r] }
  else
    { res with failed := res.failed + 1, details := res.details ++ [r] }

/-- The queue-draining loop of the worker pool, one task at a time (the
`queue.shift()` / run / record cycle; see `PoolStep` below for the
interleaving argument that serializing it is faithful).  Each dispatch is
recorded as a `processing` event. -/
def runQueue (env : Env) (cfg : Config) (processId : String) :
    List String → Results → St → Results × St × List Ev
  | [], res, st => (res, st, [])
  | p :: rest, res, st =>
    let (r, st₁, tr₁) := performOCR env cfg p processId st
    let (resF, stF, trF) := runQueue env cfg processId rest (tally res r) st₁
    (resF, stF, Ev.processing p :: tr₁ ++ trF)

/-- The no-proxy variant of the queue loop. -/
def runQueueDirect (env : Env) (cfg : Config) (processId : String) :
    List String → Results → St → Results × St × List Ev
  | [], res, st => (res, st, [])
  | p :: rest, res, st =>
    let (r, st₁, tr₁) := performOCRDirect env cfg p processId st
    let (resF, stF, trF) := runQueueDirect env cfg processId rest (tally res r) st₁
    (resF, stF, Ev.processing p :: tr₁ ++ trF)

/-- `processImagesWithPool`: pre-filter, return early when nothing is
pending, otherwise drain the queue. -/
def processImagesWithPool (env : Env) (cfg : Config) (processId : String)
    (imagePaths : List String) (st : St) : Results × St × List Ev :=
  let (res₀, pending) := classify st.fs imagePaths
  if pending.isEmpty then (res₀, st, [])
  else runQueue env cfg processId pending res₀ st

/-- `processImagesWithPoolDirect`. -/
def processImagesWithPoolDirect (env : Env) (cfg : Config) (processId : String)
    (imagePaths : List String) (st : St) : Results × St × List Ev :=
  let (res₀, pending) := classify st.fs imagePaths
  if pending.isEmpty then (res₀, st, [])
  else runQueueDirect env cfg processId pending res₀ st

/-! ## Run markers and `main` -/

/-- `ocr_in_progress.flag`. -/
def progressFlag : String := "ocr_in_progress.flag"

/-- `ocr_completed.flag`. -/
def completionFlag : String := "ocr_completed.flag"

/-- `createProgressFile`: write the in-progress marker; a throw is caught
and logged.  Emits `wroteProgress` on success. -/
def createProgressFile (env : Env) (st : St) : St × List Ev :=
  if env.writeFails progressFlag then (st, [])
  else ({ st with fs := fsSet st.fs progressFlag env.now }, [Ev.wroteProgress])

/-- The `total` field written into the completion marker by
`createCompletionFile`. -/
def completionFileTotal (res : Results) : Nat :=
  res.successful + res.failed + res.skipped + res.locked

/-- `createCompletionFile`: write the completion marker, then delete the
in-progress marker when present; every throw is caught (and a throw while
writing skips the deletion). -/
def createCompletionFile (env : Env) (st : St) : St :=
  if env.writeFails completionFlag then st
  else
    let fs₁ := fsSet st.fs completionFlag env.now
    if fs₁.present progressFlag then
      if env.unlinkFails progressFlag then { st with fs := fs₁ }
      else { st with fs := fsRemove fs₁ progressFlag }
    else { st with fs := fs₁ }

/-- Result of `main`: an early `process.exit` with a code, or a completed
run. -/
inductive MainOut where
  | exited (code : Nat)
  | finished (res : Results)
deriving DecidableEq, Repr

/-- `main`, for an invocation that did supply a folder path.  `rootExists`
and `rootIsDir` are what `fs.statSync(normalizedPath)` reports for the
root (a missing root makes it throw into the catch-all, which exits 1);
`imageFiles` is the outcome of the `findImageFiles` scan of that root.
The proxy manager is initialized and the in-progress marker written
*before* the root is validated; an invalid root or an empty scan exits 1. -/
def mainRun (env : Env) (cfg : Config) (processId : String)
    (rootExists rootIsDir : Bool) (imageFiles : List String) (st : St) :
    MainOut × St × List Ev :=
  let st₁ := if cfg.useProxy then pmInit env st else st
  let (st₂, tr₂) := createProgressFile env st₁
  if ¬ rootExists then (.exited 1, st₂, tr₂)
  else if ¬ rootIsDir then (.exited 1, st₂, tr₂)
  else if imageFiles.isEmpty then (.exited 1, st₂, tr₂)
  else
    let (st₃, tr₃) := createProgressFile env st₂
    let (res, st₄, tr₄) :=
      if cfg.useProxy then processImagesWithPool env cfg processId imageFiles st₃
      else processImagesWithPoolDirect env cfg processId imageFiles st₃
    let st₅ := createCompletionFile env st₄
    (.finished res, st₅, tr₂ ++ tr₃ ++ tr₄)

/-! ## Worker pool scheduler (interleaving model)

The workers of `processImagesWithPool` run concurrently on the event loop;
between two `await`s a worker's code runs atomically.  Each worker
iteration therefore consists of two atomic segments: the
check-and-`shift()` of the shared queue (no `await` separates the length
test from the `shift`), and — after the awaited `performOCR` — the
recording of the outcome in the shared results collection.  A worker whose
queue check finds the queue empty leaves its loop and its promise
resolves.  `PoolStep` is the induced small-step relation over all
interleavings; `poolInit` starts `Math.min(config.batchSize,
pendingImagePaths.length)` workers, exactly as the pool construction
loop does. -/

/-- One worker's position in its loop. -/
inductive WStatus where
  | idle
  | processing (x : String)
  | finished
deriving DecidableEq, Repr

/-- Shared pool state: the pending queue, the items whose outcomes were
recorded so far (identified by their resource), and the workers. -/
structure PoolSt where
  queue : List String
  results : List String
  workers : List WStatus
deriving DecidableEq, Repr

/-- The atomic transitions of the pool. -/
inductive PoolStep : PoolSt → PoolSt → Prop
  | pop (s : PoolSt) (i : Nat) (x : String) (q : List String)
      (hw : s.workers[i]? = some WStatus.idle)
      (hq : s.queue = x :: q) :
      PoolStep s ⟨q, s.results, s.workers.set i (WStatus.processing x)⟩
  | finish (s : PoolSt) (i : Nat) (x : String)
      (hw : s.workers[i]? = some (WStatus.processing x)) :
      PoolStep s ⟨s.queue, s.results ++ [x], s.workers.set i WStatus.idle⟩
  | exit (s : PoolSt) (i : Nat)
      (hw : s.workers[i]? = some WStatus.idle)
      (hq : s.queue = []) :
      PoolStep s ⟨s.queue, s.results, s.workers.set i WStatus.finished⟩

/-- The initial pool state: the pending queue, no results, and
`min(concurrency, queue length)` idle workers. -/
def poolInit (concurrency : Nat) (pending : List String) : PoolSt :=
  ⟨pending, [], List.replicate (min concurrency pending.length) WStatus.idle⟩

/-- Reachability under pool interleavings. -/
def PoolReach : PoolSt → PoolSt → Prop :=
  Relation.ReflTransGen PoolStep

/-- A terminal pool state: every worker's promise has resolved. -/
def PoolDone (s : PoolSt) : Prop :=
  ∀ w ∈ s.workers, w = WStatus.finished

/-- The items currently inside some worker. -/
def inFlight (ws : List WStatus) : List String :=
  ws.filterMap (fun w => match w with | WStatus.processing x => some x | _ => none)

/-! ## Lock manager: staleness characterization and claims C4, C10 -/

/-- The staleness test, characterized without the rational division: the
marker must be present and statable, and strictly older than the window. -/
theorem isLockStale_iff (env : Env) (fs : FileSys) (lp : String) (W : Nat) :
    isLockStale env fs lp W = true ↔
      fs.present lp = true ∧ env.statFails lp = false ∧
      (W : Int) * (1000 * 60) < env.now - fs.mtimeMs lp := by
  cases hp : fs.present lp with
  | false => simp [isLockStale, hp]
  | true =>
    cases hsf : env.statFails lp with
    | true => simp [isLockStale, hp, hsf]
    | false =>
      simp only [isLockStale, hp, hsf, Bool.true_eq_false, not_false_eq_true,
        Bool.false_eq_true, if_false, not_true, decide_eq_true_eq, gt_iff_lt,
        true_and, if_true, if_neg, not_not]
      rw [lt_div_iff₀ (by norm_num : (0 : ℚ) < 1000 * 60)]
      rw [show ((1000 * 60 : ℚ)) = ((1000 * 60 : Int) : ℚ) by norm_num]
      rw [← Int.cast_natCast (R := ℚ), ← Int.cast_mul, Int.cast_lt]

/-- With the marker present and not stale, `acquireLock` reports the
resource busy and changes nothing. -/
theorem acquireLock_busy (env : Env) (imagePath processId : String) (W : Nat)
    (fs : FileSys) (hp : fs.present (getLockFilePath imagePath) = true)
    (hs : isLockStale env fs (getLockFilePath imagePath) W = false) :
    acquireLock env imagePath processId W fs = (false, fs, []) := by
  unfold acquireLock
  rw [if_neg (by simp [hp]), if_neg (by simp [hs])]

/-- With the marker present and stale, `acquireLock` overrides: it removes
the old marker and re-creates a fresh one. -/
theorem acquireLock_override (env : Env) (imagePath processId : String) (W : Nat)
    (fs : FileSys) (hp : fs.present (getLockFilePath imagePath) = true)
    (hs : isLockStale env fs (getLockFilePath imagePath) W = true) :
    acquireLock env imagePath processId W fs =
      createLockFile env imagePath (removeLockFile env imagePath fs).2 := by
  unfold acquireLock
  rw [if_neg (by simp [hp]), if_pos (by simp [hs])]

/-- Claim C10 (confirmed): a marker whose file is absent, or whose stats
cannot be read, is never treated as stale — and an acquire attempt against
a present marker with unreadable stats fails without overriding anything:
stat errors fail safe toward treating the lock as held. -/
theorem stat_error_fail_safe (env : Env) (fs : FileSys)
    (lockPath imagePath processId : String) (W : Nat) :
    (fs.present lockPath = false → isLockStale env fs lockPath W = false)
    ∧ (env.statFails lockPath = true → isLockStale env fs lockPath W = false)
    ∧ (fs.present (getLockFilePath imagePath) = true →
        env.statFails (getLockFilePath imagePath) = true →
        acquireLock env imagePath processId W fs = (false, fs, [])) := by
  refine ⟨fun hp => ?_, fun hs => ?_, fun hp hs => ?_⟩
  · simp [isLockStale, hp]
  · simp [isLockStale, hs]
  · exact acquireLock_busy env imagePath processId W fs hp (by simp [isLockStale, hs])

/-- Witness for C10 at a concrete world: lock marker present, stats
unreadable, acquire fails and leaves the filesystem untouched. -/
theorem stat_error_fail_safe_witness :
    acquireLock ⟨1800000, fun _ => true, fun _ => false, fun _ => false, fun _ => false⟩
        "root/a.png" "pid" 30
        ⟨fun p => p = "root/a.png" || p = "root/a.png.lock", fun _ => 0⟩ =
      (false, ⟨fun p => p = "root/a.png" || p = "root/a.png.lock", fun _ => 0⟩, []) :=
  (stat_error_fail_safe
      ⟨1800000, fun _ => true, fun _ => false, fun _ => false, fun _ => false⟩
      ⟨fun p => p = "root/a.png" || p = "root/a.png.lock", fun _ => 0⟩
      "root/a.png.lock" "root/a.png" "pid" 30).2.2 (by decide) (by decide)

/-- The concrete world of the C4 boundary test: a lock marker created at
epoch 0, observed at exactly `W = 30` minutes of age. -/
def fsC4 : FileSys := ⟨fun p => p = "root/a.png" || p = "root/a.png.lock", fun _ => 0⟩

/-- Clock for the C4 boundary test: exactly `30 * 60 * 1000` ms. -/
def envC4 : Env := ⟨1800000, fun _ => false, fun _ => false, fun _ => false, fun _ => false⟩

/-- Claim C4 (counterexample): at age *exactly* `W` the marker is not
treated as stale (the source compares with strict `>`), and the acquire
operation does not override it — refuting "overridable starting exactly at
age W". -/
theorem lock_boundary_not_overridable :
    isLockStale envC4 fsC4 (getLockFilePath "root/a.png") 30 = false
    ∧ acquireLock envC4 "root/a.png" "pid" 30 fsC4 = (false, fsC4, []) := by
  have h1 : isLockStale envC4 fsC4 (getLockFilePath "root/a.png") 30 = false := by
    rw [Bool.eq_false_iff]
    intro h
    have h3 := (isLockStale_iff envC4 fsC4 (getLockFilePath "root/a.png") 30).mp h
    have h4 := h3.2.2
    norm_num [envC4, fsC4] at h4
  exact ⟨h1, acquireLock_busy envC4 "root/a.png" "pid" 30 fsC4 (by decide) h1⟩

/-- Claim C4 (amended): a marker is treated as stale by the acquire
operation exactly when its age strictly exceeds the window — overridable
at any age strictly above `W` and not overridable at age `W` or below. -/
theorem lock_stale_iff_strict (env : Env) (fs : FileSys)
    (imagePath processId : String) (W : Nat)
    (hp : fs.present (getLockFilePath imagePath) = true)
    (hs : env.statFails (getLockFilePath imagePath) = false) :
    (isLockStale env fs (getLockFilePath imagePath) W = true ↔
      (W : Int) * (1000 * 60) < env.now - fs.mtimeMs (getLockFilePath imagePath))
    ∧ (isLockStale env fs (getLockFilePath imagePath) W = false →
        acquireLock env imagePath processId W fs = (false, fs, []))
    ∧ (isLockStale env fs (getLockFilePath imagePath) W = true →
        acquireLock env imagePath processId W fs =
          createLockFile env imagePath (removeLockFile env imagePath fs).2) := by
  refine ⟨?_, fun h => acquireLock_busy env imagePath processId W fs hp h,
    fun h => acquireLock_override env imagePath processId W fs hp h⟩
  rw [isLockStale_iff]
  simp [hp, hs]

/-- Witness for the amended C4 at a concrete world: one millisecond past
the window the marker is stale and the acquire overrides it. -/
theorem lock_stale_iff_strict_witness :
    (isLockStale ⟨1800001, fun _ => false, fun _ => false, fun _ => false, fun _ => false⟩
        fsC4 (getLockFilePath "root/a.png") 30 = true ↔
      (30 : Int) * (1000 * 60) <
        (1800001 : Int) - fsC4.mtimeMs (getLockFilePath "root/a.png"))
    ∧ (isLockStale ⟨1800001, fun _ => false, fun _ => false, fun _ => false, fun _ => false⟩
        fsC4 (getLockFilePath "root/a.png") 30 = false →
        acquireLock ⟨1800001, fun _ => false, fun _ => false, fun _ => false, fun _ => false⟩
          "root/a.png" "pid" 30 fsC4 = (false, fsC4, []))
    ∧ (isLockStale ⟨1800001, fun _ => false, fun _ => false, fun _ => false, fun _ => false⟩
        fsC4 (getLockFilePath "root/a.png") 30 = true →
        acquireLock ⟨1800001, fun _ => false, fun _ => false, fun _ => false, fun _ => false⟩
          "root/a.png" "pid" 30 fsC4 =
          createLockFile ⟨1800001, fun _ => false, fun _ => false, fun _ => false, fun _ => false⟩
            "root/a.png" (removeLockFile
              ⟨1800001, fun _ => false, fun _ => false, fun _ => false, fun _ => false⟩
              "root/a.png" fsC4).2) :=
  lock_stale_iff_strict
    ⟨1800001, fun _ => false, fun _ => false, fun _ => false, fun _ => false⟩
    fsC4 "root/a.png" "pid" 30 (by decide) (by decide)

/-! ## Claim C1: outcome counts partition the scanned resources -/

/-- The pre-filter classifies each scanned file into exactly one bucket:
its counts plus the pending queue length cover the input. -/
theorem classify_count (fs : FileSys) : ∀ (l : List String),
    completionFileTotal (classify fs l).1 + (classify fs l).2.length = l.length := by
  intro l
  induction l with
  | nil => rfl
  | cons p rest ih =>
    simp only [classify]
    rcases hrec : classify fs rest with ⟨res, pending⟩
    rw [hrec] at ih
    by_cases h1 : fs.present (txtFullPath p) = true
    · simp only [h1, if_true, completionFileTotal] at ih ⊢
      simp only [List.length_cons]
      omega
    · by_cases h2 : isFileLocked fs p = true
      · simp only [h1, h2, if_true, if_false, Bool.false_eq_true, completionFileTotal] at ih ⊢
        simp only [List.length_cons]
        omega
      · simp only [h1, h2, if_false, Bool.false_eq_true, completionFileTotal] at ih ⊢
        simp only [List.length_cons]
        omega

/-- Recording one task outcome increments exactly one of the three
run-time counters. -/
theorem tally_total (res : Results) (r : OCRResult) :
    completionFileTotal (tally res r) = completionFileTotal res + 1 := by
  unfold tally completionFileTotal
  by_cases h1 : r.success = true
  · simp [h1]
    omega
  · by_cases h2 : r.locked = true
    · simp [h1, h2]
      omega
    · simp [h1, h2]
      omega

/-- Draining the queue adds exactly one counted outcome per pending
resource. -/
theorem runQueue_total (env : Env) (cfg : Config) (processId : String) :
    ∀ (pending : List String) (res : Results) (st : St),
      completionFileTotal (runQueue env cfg processId pending res st).1 =
        completionFileTotal res + pending.length := by
  intro pending
  induction pending with
  | nil => intro res st; rfl
  | cons p rest ih =>
    intro res st
    simp only [runQueue]
    rcases h1 : performOCR env cfg p processId st with ⟨r, st₁, tr₁⟩
    rcases h2 : runQueue env cfg processId rest (tally res r) st₁ with ⟨resF, stF, trF⟩
    have := ih (tally res r) st₁
    rw [h2] at this
    simp only [this, tally_total, List.length_cons]
    omega

/-- Claim C1 (confirmed): for every run, the four outcome counters sum to
the number of candidate files handed to the pool — every scanned file is
classified into exactly one outcome kind — and the `total` field of the
completion marker is literally that sum. -/
theorem pool_counts_sum (env : Env) (cfg : Config) (processId : String)
    (imagePaths : List String) (st : St) :
    (processImagesWithPool env cfg processId imagePaths st).1.successful +
      (processImagesWithPool env cfg processId imagePaths st).1.failed +
      (processImagesWithPool env cfg processId imagePaths st).1.skipped +
      (processImagesWithPool env cfg processId imagePaths st).1.locked
      = imagePaths.length
    ∧ completionFileTotal (processImagesWithPool env cfg processId imagePaths st).1 =
      (processImagesWithPool env cfg processId imagePaths st).1.successful +
        (processImagesWithPool env cfg processId imagePaths st).1.failed +
        (processImagesWithPool env cfg processId imagePaths st).1.skipped +
        (processImagesWithPool env cfg processId imagePaths st).1.locked := by
  refine ⟨?_, rfl⟩
  have hcc := classify_count st.fs imagePaths
  show completionFileTotal (processImagesWithPool env cfg processId imagePaths st).1 = _
  unfold processImagesWithPool
  rcases hcl : classify st.fs imagePaths with ⟨res₀, pending⟩
  rw [hcl] at hcc
  by_cases hpe : pending.isEmpty = true
  · simp only [hpe, if_true]
    simpa [List.isEmpty_iff.mp hpe] using hcc
  · simp only [hpe, Bool.false_eq_true, if_false]
    rw [runQueue_total]
    simpa using hcc

/-! ## Claim C3: a pre-existing stale lock is never overridden -/

/-- Clock for the stale-lock scenario: the marker (mtime 0) is about 116
days old, far beyond a 30-minute window. -/
def envC3 : Env := ⟨10000000000, fun _ => false, fun _ => false, fun _ => false, fun _ => false⟩

/-- Default configuration with proxying on. -/
def cfgC3 : Config := ⟨5, 3000, ["jpeg", "jpg", "png", "gif", "bmp"], 30, true, 30, 3, 1800000⟩

/-- World for the stale-lock scenario: one image with a stale lock marker
and no sibling artifact. -/
def stC3 : St := ⟨fsC4, ⟨[], 0, 0⟩, [], [], CacheLoad.absent⟩

/-- Claim C3 (the code diverges from it): with a single image whose lock
marker is far older than the staleness window, the run classifies the file
as `Locked` in the pre-filter (which tests bare existence, not staleness),
performs no fetch and no override — the trace is empty — and the stale
marker is still present afterwards.  The override logic in `acquireLock`
is unreachable for any lock that exists at scan time. -/
theorem stale_lock_prefilter_locked :
    isLockStale envC3 fsC4 (getLockFilePath "root/a.png") 30 = true
    ∧ (processImagesWithPool envC3 cfgC3 "pid" ["root/a.png"] stC3).1.locked = 1
    ∧ (processImagesWithPool envC3 cfgC3 "pid" ["root/a.png"] stC3).1.successful = 0
    ∧ (processImagesWithPool envC3 cfgC3 "pid" ["root/a.png"] stC3).2.2 = ([] : List Ev)
    ∧ (processImagesWithPool envC3 cfgC3 "pid" ["root/a.png"] stC3).2.1.fs.present
        (getLockFilePath "root/a.png") = true := by
  refine ⟨?_, by decide, by decide, by decide, by decide⟩
  rw [isLockStale_iff]
  exact ⟨by decide, by decide, by norm_num [envC3, fsC4]⟩

/-! ## Claim C9: already-done resources are skipped without any locking -/

/-- Network-side events: everything a `fetchWithProxy` or raw fetch can
emit (no lock writes, no worker dispatch, no marker writes). -/
def EvIsNet : Ev → Prop := fun e =>
  match e with
  | .wroteLock _ => False
  | .processing _ => False
  | .wroteProgress => False
  | _ => True

theorem markProxyFailed_ev (env : Env) (p : Proxy) (st : St) :
    ∀ e ∈ (markProxyFailed env p st).2.2, EvIsNet e := by
  intro e he
  unfold markProxyFailed at he
  split at he
  · simp at he
  · split at he
    · simp at he
    · split at he
      · simp only [List.mem_singleton] at he
        simp [he, EvIsNet]
      · simp only [List.mem_singleton] at he
        simp [he, EvIsNet]

theorem fwpFail_ev (env : Env)
    (loop : Option Proxy → St → LoopRes × St × List Ev)
    (hloop : ∀ lp st, ∀ e ∈ (loop lp st).2.2, EvIsNet e)
    (lastProxy : Option Proxy) (st : St) :
    ∀ e ∈ (fwpFail env loop lastProxy st).2.2, EvIsNet e := by
  intro e he
  unfold fwpFail at he
  rcases lastProxy with _ | p
  · simp only at he
    rcases hl : loop none st with ⟨res, st₁, tr⟩
    rw [hl] at he
    simp only [List.mem_cons] at he
    rcases he with he | he
    · simp [he, EvIsNet]
    · have := hloop none st
      rw [hl] at this
      exact this e he
  · simp only at he
    rcases hm : markProxyFailed env p st with ⟨threw, st₁, trm⟩
    rw [hm] at he
    have hmev := markProxyFailed_ev env p st
    rw [hm] at hmev
    cases threw with
    | true =>
      simp only at he
      exact hmev e he
    | false =>
      simp only at he
      rcases hl : loop (some p) st₁ with ⟨res, st₂, tr⟩
      rw [hl] at he
      simp only [List.mem_append, List.mem_cons] at he
      rcases he with he | he | he
      · exact hmev e he
      · simp [he, EvIsNet]
      · have := hloop (some p) st₁
        rw [hl] at this
        exact this e he

theorem fwpLoop_ev (env : Env) (cfg : Config) : ∀ (fuel : Nat)
    (lastProxy : Option Proxy) (st : St),
    ∀ e ∈ (fwpLoop env cfg fuel lastProxy st).2.2, EvIsNet e := by
  intro fuel
  induction fuel with
  | zero => intro lastProxy st e he; simp [fwpLoop] at he
  | succ n ih =>
    intro lastProxy st e he
    unfold fwpLoop at he
    rcases hg : getProxy env cfg st with ⟨gres, st₁⟩
    rw [hg] at he
    rcases gres with _ | op
    · exact fwpFail_ev env _ ih lastProxy st₁ e he
    · rcases op with _ | p
      · simp only at he
        rcases hf : fetchOnce st₁ with ⟨o, st₂⟩
        rw [hf] at he
        rcases o with _ | r
        · simp only [List.mem_cons, List.not_mem_nil, or_false] at he
          rcases he with he | he
          · simp [he, EvIsNet]
          · simp [he, EvIsNet]
        · simp only [List.mem_cons, List.not_mem_nil, or_false] at he
          rcases he with he | he
          · simp [he, EvIsNet]
          · simp [he, EvIsNet]
      · simp only at he
        rcases hf : fetchOnce st₁ with ⟨o, st₂⟩
        rw [hf] at he
        rcases o with _ | r
        · rcases hff : fwpFail env (fwpLoop env cfg n) (some p) st₂ with ⟨res, st₃, tr⟩
          rw [hff] at he
          simp only [List.mem_cons] at he
          rcases he with he | he | he
          · simp [he, EvIsNet]
          · simp [he, EvIsNet]
          · have := fwpFail_ev env _ ih (some p) st₂
            rw [hff] at this
            exact this e he
        · by_cases hok : r.ok = true
          · simp only [hok, if_true, List.mem_cons, List.not_mem_nil, or_false] at he
            rcases he with he | he
            · simp [he, EvIsNet]
            · simp [he, EvIsNet]
          · simp only [hok, Bool.false_eq_true, if_false] at he
            rcases hff : fwpFail env (fwpLoop env cfg n) (some p) st₂ with ⟨res, st₃, tr⟩
            rw [hff] at he
            simp only [List.mem_cons] at he
            rcases he with he | he | he
            · simp [he, EvIsNet]
            · simp [he, EvIsNet]
            · have := fwpFail_ev env _ ih (some p) st₂
              rw [hff] at this
              exact this e he

theorem fetchWithProxy_ev (env : Env) (cfg : Config) (retries : Nat) (st : St) :
    ∀ e ∈ (fetchWithProxy env cfg retries st).2.2, EvIsNet e := by
  intro e he
  unfold fetchWithProxy at he
  by_cases hup : cfg.useProxy = true
  · simp only [hup, not_true, if_neg, if_false, not_not] at he
    rcases hl : fwpLoop env cfg retries none st with ⟨lres, st₁, tr⟩
    have hlev := fwpLoop_ev env cfg retries none st
    rw [hl] at he hlev
    rcases lres with r | _
    · exact hlev e he
    · simp only at he
      rcases hf : fetchOnce st₁ with ⟨o, st₂⟩
      rw [hf] at he
      rcases o with _ | r
      · simp only [List.mem_append, List.mem_singleton] at he
        rcases he with he | he
        · exact hlev e he
        · simp [he, EvIsNet]
      · by_cases hok : r.ok = true
        · simp only [hok, if_true, List.mem_append, List.mem_singleton] at he
          rcases he with he | he
          · exact hlev e he
          · simp [he, EvIsNet]
        · simp only [hok, Bool.false_eq_true, if_false, List.mem_append,
            List.mem_singleton] at he
          rcases he with he | he
          · exact hlev e he
          · simp [he, EvIsNet]
  · simp only [hup, Bool.false_eq_true, not_false_eq_true, if_true] at he
    rcases hf : fetchOnce st with ⟨o, st₁⟩
    rw [hf] at he
    rcases o with _ | r
    · simp only [List.mem_singleton] at he
      simp [he, EvIsNet]
    · simp only [List.mem_singleton] at he
      simp [he, EvIsNet]

/-- The only event `createLockFile` can emit is the lock-write for its
own resource. -/
theorem createLockFile_ev (env : Env) (imagePath : String) (fs : FileSys) :
    ∀ e ∈ (createLockFile env imagePath fs).2.2, e = Ev.wroteLock imagePath := by
  intro e he
  unfold createLockFile at he
  simp only at he
  split at he
  · simp at he
  · simpa using he

/-- The only event the acquire path can emit is the lock-write for its
own resource. -/
theorem acquireLock_ev (env : Env) (imagePath processId : String) (W : Nat)
    (fs : FileSys) :
    ∀ e ∈ (acquireLock env imagePath processId W fs).2.2, e = Ev.wroteLock imagePath := by
  intro e he
  unfold acquireLock at he
  simp only at he
  split at he
  · exact createLockFile_ev env imagePath fs e he
  · split at he
    · rcases hr : removeLockFile env imagePath fs with ⟨ok, fs₁⟩
      rw [hr] at he
      simp only at he
      exact createLockFile_ev env imagePath fs₁ e he
    · simp at he

/-- `performOCR` emits only its own lock-write and network events. -/
theorem performOCR_ev (env : Env) (cfg : Config) (imagePath processId : String)
    (st : St) :
    ∀ e ∈ (performOCR env cfg imagePath processId st).2.2,
      e = Ev.wroteLock imagePath ∨ EvIsNet e := by
  intro e he
  unfold performOCR at he
  rcases ha : acquireLock env imagePath processId cfg.staleLockTime st.fs with ⟨acq, fs₀, tr₀⟩
  rw [ha] at he
  have haev := acquireLock_ev env imagePath processId cfg.staleLockTime st.fs
  rw [ha] at haev
  simp only at he
  split at he
  · exact Or.inl (haev e he)
  · split at he
    · exact Or.inl (haev e he)
    · rcases hf : fetchWithProxy env cfg cfg.proxyRetries
        { st with fs := fs₀ } with ⟨fres, st₁, tr₁⟩
      rw [hf] at he
      have hfev := fetchWithProxy_ev env cfg cfg.proxyRetries { st with fs := fs₀ }
      rw [hf] at hfev
      rcases fres with _ | r
      · simp only [List.mem_append] at he
        rcases he with he | he
        · exact Or.inl (haev e he)
        · exact Or.inr (hfev e he)
      · simp only [List.mem_append] at he
        rcases he with he | he
        · exact Or.inl (haev e he)
        · exact Or.inr (hfev e he)

/-- `performOCRDirect` emits only its own lock-write and network events. -/
theorem performOCRDirect_ev (env : Env) (cfg : Config) (imagePath processId : String)
    (st : St) :
    ∀ e ∈ (performOCRDirect env cfg imagePath processId st).2.2,
      e = Ev.wroteLock imagePath ∨ EvIsNet e := by
  intro e he
  unfold performOCRDirect at he
  rcases ha : acquireLock env imagePath processId cfg.staleLockTime st.fs with ⟨acq, fs₀, tr₀⟩
  rw [ha] at he
  have haev := acquireLock_ev env imagePath processId cfg.staleLockTime st.fs
  rw [ha] at haev
  simp only at he
  split at he
  · exact Or.inl (haev e he)
  · split at he
    · exact Or.inl (haev e he)
    · rcases hf : fetchOnce { st with fs := fs₀ } with ⟨o, st₁⟩
      rw [hf] at he
      rcases o with _ | r
      · simp only [List.mem_append, List.mem_singleton] at he
        rcases he with he | he
        · exact Or.inl (haev e he)
        · exact Or.inr (by simp [he, EvIsNet])
      · simp only [List.mem_append, List.mem_singleton] at he
        rcases he with he | he
        · exact Or.inl (haev e he)
        · exact Or.inr (by simp [he, EvIsNet])

/-- Every event of the queue-draining loop is either a dispatch or a
lock-write tagged with a queued resource, or a network event. -/
theorem runQueue_ev (env : Env) (cfg : Config) (processId : String) :
    ∀ (pending : List String) (res : Results) (st : St),
      ∀ e ∈ (runQueue env cfg processId pending res st).2.2,
        (∃ p ∈ pending, e = Ev.processing p ∨ e = Ev.wroteLock p) ∨ EvIsNet e := by
  intro pending
  induction pending with
  | nil => intro res st e he; simp [runQueue] at he
  | cons p rest ih =>
    intro res st e he
    simp only [runQueue] at he
    rcases h1 : performOCR env cfg p processId st with ⟨r, st₁, tr₁⟩
    rw [h1] at he
    have h1ev := performOCR_ev env cfg p processId st
    rw [h1] at h1ev
    simp only at he
    rcases h2 : runQueue env cfg processId rest (tally res r) st₁ with ⟨resF, stF, trF⟩
    rw [h2] at he
    have h2ev := ih (tally res r) st₁
    rw [h2] at h2ev
    simp only [List.mem_cons, List.mem_append] at he
    rcases he with (he | he) | he
    · exact Or.inl ⟨p, List.mem_cons_self p rest, Or.inl he⟩
    · rcases h1ev e he with hl | hn
      · exact Or.inl ⟨p, List.mem_cons_self p rest, Or.inr hl⟩
      · exact Or.inr hn
    · rcases h2ev e he with ⟨q, hq, hd⟩ | hn
      · exact Or.inl ⟨q, List.mem_cons_of_mem p hq, hd⟩
      · exact Or.inr hn

/-- A resource with an existing sibling artifact receives its `Skipped`
detail entry from the pre-filter. -/
theorem classify_skip_mem (fs : FileSys) (r : String) : ∀ (l : List String),
    r ∈ l → fs.present (txtFullPath r) = true →
    skipEntry r ∈ (classify fs l).1.details := by
  intro l
  induction l with
  | nil => intro h; simp at h
  | cons p rest ih =>
    intro hmem htxt
    simp only [classify]
    rcases hrec : classify fs rest with ⟨res, pending⟩
    rcases List.mem_cons.mp hmem with hp | hp
    · subst hp
      simp only [htxt, if_true]
      exact List.mem_cons_self _ _
    · have hin := ih hp htxt
      rw [hrec] at hin
      by_cases h1 : fs.present (txtFullPath p) = true
      · simp only [h1, if_true]
        exact List.mem_cons_of_mem _ hin
      · by_cases h2 : isFileLocked fs p = true
        · simp only [h1, h2, Bool.false_eq_true, if_false, if_true]
          exact List.mem_cons_of_mem _ hin
        · simp only [h1, h2, Bool.false_eq_true, if_false]
          exact hin

/-- A resource with an existing sibling artifact never enters the pending
queue. -/
theorem classify_not_pending (fs : FileSys) (r : String)
    (htxt : fs.present (txtFullPath r) = true) : ∀ (l : List String),
    r ∉ (classify fs l).2 := by
  intro l
  induction l with
  | nil => simp [classify]
  | cons p rest ih =>
    simp only [classify]
    rcases hrec : classify fs rest with ⟨res, pending⟩
    rw [hrec] at ih
    by_cases h1 : fs.present (txtFullPath p) = true
    · simpa [h1] using ih
    · by_cases h2 : isFileLocked fs p = true
      · simpa [h1, h2] using ih
      · simp only [h1, h2, Bool.false_eq_true, if_false]
        intro hm
        rcases List.mem_cons.mp hm with hp | hp
        · subst hp
          exact h1 htxt
        · exact ih hp

/-- Detail entries present before the queue is drained are still present
afterwards (workers only append). -/
theorem runQueue_details_mem (env : Env) (cfg : Config) (processId : String)
    (d : OCRResult) : ∀ (pending : List String) (res : Results) (st : St),
    d ∈ res.details → d ∈ (runQueue env cfg processId pending res st).1.details := by
  intro pending
  induction pending with
  | nil => intro res st h; simpa [runQueue] using h
  | cons p rest ih =>
    intro res st h
    simp only [runQueue]
    rcases h1 : performOCR env cfg p processId st with ⟨r, st₁, tr₁⟩
    have h2 := ih (tally res r) st₁ (by
      unfold tally
      split
      · exact List.mem_append_left _ h
      · split
        · exact List.mem_append_left _ h
        · exact List.mem_append_left _ h)
    rcases h3 : runQueue env cfg processId rest (tally res r) st₁ with ⟨resF, stF, trF⟩
    rw [h3] at h2
    exact h2

/-- Claim C9 (confirmed): a resource whose sibling result artifact exists
before the run starts is `Skipped` by the pre-filter, never enters the
pending queue, is never dispatched to a worker (so no fetch is attempted
on its behalf), and no lock marker is ever written for it. -/
theorem skipped_no_lock (env : Env) (cfg : Config) (processId : String)
    (imagePaths : List String) (st : St) (r : String)
    (hmem : r ∈ imagePaths)
    (htxt : st.fs.present (txtFullPath r) = true) :
    skipEntry r ∈ (processImagesWithPool env cfg processId imagePaths st).1.details
    ∧ Ev.wroteLock r ∉ (processImagesWithPool env cfg processId imagePaths st).2.2
    ∧ Ev.processing r ∉ (processImagesWithPool env cfg processId imagePaths st).2.2 := by
  have hskip := classify_skip_mem st.fs r imagePaths hmem htxt
  have hnp := classify_not_pending st.fs r htxt imagePaths
  unfold processImagesWithPool
  rcases hcl : classify st.fs imagePaths with ⟨res₀, pending⟩
  rw [hcl] at hskip hnp
  by_cases hpe : pending.isEmpty = true
  · simp only [hpe, if_true]
    exact ⟨hskip, by simp, by simp⟩
  · simp only [hpe, Bool.false_eq_true, if_false]
    have hev := runQueue_ev env cfg processId pending res₀ st
    refine ⟨runQueue_details_mem env cfg processId _ pending res₀ st hskip, ?_, ?_⟩
    · intro hin
      rcases hev _ hin with ⟨q, hq, hd | hd⟩ | hn
      · exact Ev.noConfusion hd
      · rw [Ev.wroteLock.injEq] at hd
        exact hnp (hd ▸ hq)
      · simp [EvIsNet] at hn
    · intro hin
      rcases hev _ hin with ⟨q, hq, hd | hd⟩ | hn
      · rw [Ev.processing.injEq] at hd
        exact hnp (hd ▸ hq)
      · exact Ev.noConfusion hd
      · simp [EvIsNet] at hn

/-- Witness for C9 at a concrete world: one image whose `.txt` sibling
already exists. -/
theorem skipped_no_lock_witness :
    skipEntry "root/a.png" ∈
      (processImagesWithPool envC3 cfgC3 "pid" ["root/a.png"]
        ⟨⟨fun p => p = "root/a.png" || p = "root/a.txt", fun _ => 0⟩,
          ⟨[], 0, 0⟩, [], [], CacheLoad.absent⟩).1.details
    ∧ Ev.wroteLock "root/a.png" ∉
      (processImagesWithPool envC3 cfgC3 "pid" ["root/a.png"]
        ⟨⟨fun p => p = "root/a.png" || p = "root/a.txt", fun _ => 0⟩,
          ⟨[], 0, 0⟩, [], [], CacheLoad.absent⟩).2.2
    ∧ Ev.processing "root/a.png" ∉
      (processImagesWithPool envC3 cfgC3 "pid" ["root/a.png"]
        ⟨⟨fun p => p = "root/a.png" || p = "root/a.txt", fun _ => 0⟩,
          ⟨[], 0, 0⟩, [], [], CacheLoad.absent⟩).2.2 :=
  skipped_no_lock envC3 cfgC3 "pid" ["root/a.png"]
    ⟨⟨fun p => p = "root/a.png" || p = "root/a.txt", fun _ => 0⟩,
      ⟨[], 0, 0⟩, [], [], CacheLoad.absent⟩ "root/a.png"
    (by decide) (by decide)

/-! ## Claim C7: error containment and lock release in the OCR task -/

/-- When the unlink does not throw, releasing leaves the marker absent,
whatever the input filesystem. -/
theorem removeLockFile_absent (env : Env) (imagePath : String) (fs : FileSys)
    (hunlink : env.unlinkFails (getLockFilePath imagePath) = false) :
    (removeLockFile env imagePath fs).2.present (getLockFilePath imagePath) = false := by
  unfold removeLockFile
  simp only
  split
  · rw [hunlink]
    simp [fsRemove]
  · rename_i h
    simpa using h

/-- Response handling: every branch releases the lock (given a working
unlink), every non-success outcome carries a reason string, and none of
them reports `locked`. -/
theorem handleResponse_spec (env : Env) (imagePath : String) (r : Resp) (st : St)
    (hunlink : env.unlinkFails (getLockFilePath imagePath) = false) :
    (handleResponse env imagePath r st).2.fs.present (getLockFilePath imagePath) = false
    ∧ ((handleResponse env imagePath r st).1.success = false →
        (handleResponse env imagePath r st).1.error.isSome = true)
    ∧ (handleResponse env imagePath r st).1.locked = false := by
  unfold handleResponse
  by_cases hok : r.ok = true
  · simp only [hok, if_true, not_true, if_neg, Bool.not_eq_true, not_false_eq_true]
    rcases r.body with _ | _ | _ | s
    · simp only
      rcases h1 : removeLockFile env imagePath st.fs with ⟨ok₁, fs₁⟩
      have := removeLockFile_absent env imagePath st.fs hunlink
      rw [h1] at this
      exact ⟨this, by simp, by trivial⟩
    · simp only
      rcases h1 : removeLockFile env imagePath st.fs with ⟨ok₁, fs₁⟩
      have := removeLockFile_absent env imagePath st.fs hunlink
      rw [h1] at this
      exact ⟨this, by simp, by trivial⟩
    · simp only
      rcases h1 : removeLockFile env imagePath st.fs with ⟨ok₁, fs₁⟩
      rcases h2 : removeLockFile env imagePath fs₁ with ⟨ok₂, fs₂⟩
      have := removeLockFile_absent env imagePath fs₁ hunlink
      rw [h2] at this
      exact ⟨this, by simp, by trivial⟩
    · simp only
      by_cases hw : env.writeFails (txtFullPath imagePath) = true
      · simp only [hw, if_true]
        rcases h1 : removeLockFile env imagePath st.fs with ⟨ok₁, fs₁⟩
        have := removeLockFile_absent env imagePath st.fs hunlink
        rw [h1] at this
        exact ⟨this, by simp, by trivial⟩
      · simp only [hw, Bool.false_eq_true, if_false]
        rcases h1 : removeLockFile env imagePath
            (fsSet st.fs (txtFullPath imagePath) env.now) with ⟨ok₁, fs₁⟩
        have := removeLockFile_absent env imagePath
          (fsSet st.fs (txtFullPath imagePath) env.now) hunlink
        rw [h1] at this
        exact ⟨this, by simp, by trivial⟩
  · simp only [hok, Bool.false_eq_true, if_false, if_pos, not_false_eq_true]
    rcases h1 : removeLockFile env imagePath st.fs with ⟨ok₁, fs₁⟩
    rcases h2 : removeLockFile env imagePath fs₁ with ⟨ok₂, fs₂⟩
    have := removeLockFile_absent env imagePath fs₁ hunlink
    rw [h2] at this
    exact ⟨this, by simp, by trivial⟩

/-- Claim C7 (confirmed): `performOCR` never propagates a per-resource
error — it is a total function into outcome objects — and (i) whenever it
got past lock acquisition (every outcome except `locked`) the lock marker
is absent afterwards, provided the unlink itself does not throw; (ii)
every non-success outcome carries a human-readable reason string; (iii)
the `locked` outcome is reported exactly when acquisition failed. -/
theorem performOCR_containment (env : Env) (cfg : Config)
    (imagePath processId : String) (st : St)
    (hunlink : env.unlinkFails (getLockFilePath imagePath) = false) :
    ((performOCR env cfg imagePath processId st).1.locked = false →
      (performOCR env cfg imagePath processId st).2.1.fs.present
        (getLockFilePath imagePath) = false)
    ∧ ((performOCR env cfg imagePath processId st).1.success = false →
        (performOCR env cfg imagePath processId st).1.error.isSome = true)
    ∧ ((performOCR env cfg imagePath processId st).1.locked
        = !(acquireLock env imagePath processId cfg.staleLockTime st.fs).1) := by
  unfold performOCR
  rcases ha : acquireLock env imagePath processId cfg.staleLockTime st.fs with ⟨acq, fs₀, tr₀⟩
  simp only
  cases acq with
  | false => exact ⟨fun h => by simp at h, by simp, by simp⟩
  | true =>
    simp only [not_true, if_neg, Bool.not_true, Bool.false_eq_true, if_false,
      not_false_eq_true, if_true, Bool.not_eq_true]
    by_cases hrd : env.readFails imagePath = true
    · simp only [hrd, if_true]
      rcases h1 : removeLockFile env imagePath fs₀ with ⟨ok₁, fs₁⟩
      have := removeLockFile_absent env imagePath fs₀ hunlink
      rw [h1] at this
      exact ⟨fun _ => this, by simp, by simp⟩
    · simp only [hrd, Bool.false_eq_true, if_false]
      rcases hf : fetchWithProxy env cfg cfg.proxyRetries { st with fs := fs₀ }
        with ⟨fres, st₁, tr₁⟩
      rcases fres with _ | r
      · simp only
        rcases h1 : removeLockFile env imagePath st₁.fs with ⟨ok₁, fs₁⟩
        have := removeLockFile_absent env imagePath st₁.fs hunlink
        rw [h1] at this
        exact ⟨fun _ => this, by simp, by simp⟩
      · simp only
        rcases hh : handleResponse env imagePath r st₁ with ⟨res, st₂⟩
        have hs := handleResponse_spec env imagePath r st₁ hunlink
        rw [hh] at hs
        exact ⟨fun _ => hs.1, hs.2.1, hs.2.2⟩

/-- Witness for C7 at a concrete world: proxying on, one healthy proxy, a
2xx response with a text payload; the task succeeds and the lock marker is
gone. -/
theorem performOCR_containment_witness :
    ((performOCR ⟨1800000, fun _ => false, fun _ => false, fun _ => false, fun _ => false⟩
        cfgC3 "root/a.png" "pid"
        ⟨⟨fun p => p = "root/a.png", fun _ => 0⟩, ⟨[⟨"1.1.1.1", "80", 0, 0⟩], 0, 1800000⟩,
          [], [some ⟨true, 200, RespBody.text "hello"⟩], CacheLoad.absent⟩).1.locked = false →
      (performOCR ⟨1800000, fun _ => false, fun _ => false, fun _ => false, fun _ => false⟩
        cfgC3 "root/a.png" "pid"
        ⟨⟨fun p => p = "root/a.png", fun _ => 0⟩, ⟨[⟨"1.1.1.1", "80", 0, 0⟩], 0, 1800000⟩,
          [], [some ⟨true, 200, RespBody.text "hello"⟩], CacheLoad.absent⟩).2.1.fs.present
        (getLockFilePath "root/a.png") = false)
    ∧ ((performOCR ⟨1800000, fun _ => false, fun _ => false, fun _ => false, fun _ => false⟩
        cfgC3 "root/a.png" "pid"
        ⟨⟨fun p => p = "root/a.png", fun _ => 0⟩, ⟨[⟨"1.1.1.1", "80", 0, 0⟩], 0, 1800000⟩,
          [], [some ⟨true, 200, RespBody.text "hello"⟩], CacheLoad.absent⟩).1.success = false →
        (performOCR ⟨1800000, fun _ => false, fun _ => false, fun _ => false, fun _ => false⟩
        cfgC3 "root/a.png" "pid"
        ⟨⟨fun p => p = "root/a.png", fun _ => 0⟩, ⟨[⟨"1.1.1.1", "80", 0, 0⟩], 0, 1800000⟩,
          [], [some ⟨true, 200, RespBody.text "hello"⟩], CacheLoad.absent⟩).1.error.isSome = true)
    ∧ ((performOCR ⟨1800000, fun _ => false, fun _ => false, fun _ => false, fun _ => false⟩
        cfgC3 "root/a.png" "pid"
        ⟨⟨fun p => p = "root/a.png", fun _ => 0⟩, ⟨[⟨"1.1.1.1", "80", 0, 0⟩], 0, 1800000⟩,
          [], [some ⟨true, 200, RespBody.text "hello"⟩], CacheLoad.absent⟩).1.locked
        = !(acquireLock ⟨1800000, fun _ => false, fun _ => false, fun _ => false, fun _ => false⟩
            "root/a.png" "pid" cfgC3.staleLockTime
            (⟨fun p => p = "root/a.png", fun _ => 0⟩ : FileSys)).1) :=
  performOCR_containment
    ⟨1800000, fun _ => false, fun _ => false, fun _ => false, fun _ => false⟩
    cfgC3 "root/a.png" "pid"
    ⟨⟨fun p => p = "root/a.png", fun _ => 0⟩, ⟨[⟨"1.1.1.1", "80", 0, 0⟩], 0, 1800000⟩,
      [], [some ⟨true, 200, RespBody.text "hello"⟩], CacheLoad.absent⟩
    (by decide)

/-! ## Claim C6: proxy selection -/

/-- An entry selected by the round-robin scan has fewer than 3 failures. -/
theorem scanLoop_found_fails (env : Env) (pool : List Proxy) :
    ∀ (fuel idx : Nat) (p : Proxy) (l : List Proxy) (ni : Nat),
      scanLoop env pool idx fuel = ScanRes.found p l ni → p.fails ≤ 2 := by
  intro fuel
  induction fuel with
  | zero => intro idx p l ni h; simp [scanLoop] at h
  | succ n ih =>
    intro idx p l ni h
    unfold scanLoop at h
    rcases hg : pool[idx]? with _ | q
    · rw [hg] at h
      simp at h
    · rw [hg] at h
      simp only at h
      by_cases hf : 3 ≤ q.fails
      · rw [if_pos hf] at h
        exact ih _ p l ni h
      · rw [if_neg hf] at h
        simp only [ScanRes.found.injEq] at h
        rcases h with ⟨hp, -, -⟩
        rw [← hp]
        have hq : q.fails ≤ 2 := by omega
        simpa using hq

/-- When every entry has failed at least 3 times, the scan walks the full
cycle and exhausts, returning to the starting index. -/
theorem scanLoop_all_failed (env : Env) (pool : List Proxy)
    (h3 : ∀ q ∈ pool, 3 ≤ q.fails) :
    ∀ (fuel idx : Nat), idx < pool.length →
      scanLoop env pool idx fuel = ScanRes.exhausted ((idx + fuel) % pool.length) := by
  intro fuel
  induction fuel with
  | zero =>
    intro idx hidx
    rw [scanLoop, Nat.add_zero, Nat.mod_eq_of_lt hidx]
  | succ n ih =>
    intro idx hidx
    unfold scanLoop
    rw [List.getElem?_eq_getElem hidx]
    simp only
    rw [if_pos (h3 _ (pool.getElem_mem hidx))]
    have hlen : 0 < pool.length := by omega
    rw [ih ((idx + 1) % pool.length) (Nat.mod_lt _ hlen)]
    congr 1
    conv_lhs => rw [Nat.mod_add_mod]
    congr 1
    omega

/-- Entered at an out-of-range index (one left behind by an eviction in
`markProxyFailed`), the scan's first iteration reads `undefined` and the
`proxy.fails` access throws — after `currentIndex` was already stepped. -/
theorem scanLoop_oob (env : Env) (pool : List Proxy) (idx fuel : Nat)
    (hfuel : fuel ≠ 0) (hidx : pool.length ≤ idx) :
    scanLoop env pool idx fuel = ScanRes.err ((idx + 1) % pool.length) := by
  cases fuel with
  | zero => exact absurd rfl hfuel
  | succ n =>
    unfold scanLoop
    rw [List.getElem?_eq_none hidx]

/-- A scan-phase selection never carries 3 or more failures (a reset
happened first if every entry was exhausted). -/
theorem scanPhase_some_fails (env : Env) (st : St) (p : Proxy) (st' : St)
    (h : scanPhase env st = (.ok (some p), st')) : p.fails ≤ 2 := by
  unfold scanPhase at h
  rcases hsl : scanLoop env st.pm.proxies st.pm.currentIndex st.pm.proxies.length
    with ⟨q, l, ni⟩ | ni | ni
  · rw [hsl] at h
    simp only [Prod.mk.injEq, Except.ok.injEq, Option.some.injEq] at h
    rw [← h.1]
    exact scanLoop_found_fails env st.pm.proxies _ _ q l ni hsl
  · rw [hsl] at h
    simp only at h
    rcases hpool : st.pm.proxies with _ | ⟨q, rest⟩
    · rw [hpool] at h
      simp at h
    · rw [hpool] at h
      simp only [List.map_cons, Prod.mk.injEq, Except.ok.injEq, Option.some.injEq] at h
      rw [← h.1]
      simp
  · rw [hsl] at h
    simp at h

/-- A scan-phase `null` leaves the pool empty. -/
theorem scanPhase_none (env : Env) (st : St) (st' : St)
    (h : scanPhase env st = (.ok none, st')) : st'.pm.proxies = [] := by
  unfold scanPhase at h
  rcases hsl : scanLoop env st.pm.proxies st.pm.currentIndex st.pm.proxies.length
    with ⟨q, l, ni⟩ | ni | ni
  · rw [hsl] at h
    simp at h
  · rw [hsl] at h
    simp only at h
    rcases hpool : st.pm.proxies with _ | ⟨q, rest⟩
    · rw [hpool] at h
      simp only [List.map_nil, Prod.mk.injEq] at h
      rw [← h.2]
    · rw [hpool] at h
      simp at h
  · rw [hsl] at h
    simp at h

/-- When the cache write does not throw, a failing `refreshProxies` left
the in-memory pool untouched. -/
theorem refreshProxies_false_pm (env : Env) (st : St)
    (hcw : env.writeFails proxyFile = false)
    (h : (refreshProxies env st).1 = false) : (refreshProxies env st).2.pm = st.pm := by
  unfold refreshProxies at h ⊢
  rcases hseq : st.refreshSeq with _ | ⟨r, rest⟩
  · rw [hseq] at h
  · rw [hseq] at h
    rcases r with _ | rows
    · rfl
    · simp only at h ⊢
      by_cases hrows : rows.isEmpty = true
      · simp [hrows]
      · simp only [hrows, Bool.false_eq_true, if_false, hcw] at h ⊢
        simp at h

/-- A successful `refreshProxies` installs a nonempty pool. -/
theorem refreshProxies_true_nonempty (env : Env) (st : St)
    (h : (refreshProxies env st).1 = true) : (refreshProxies env st).2.pm.proxies ≠ [] := by
  unfold refreshProxies at h ⊢
  rcases hseq : st.refreshSeq with _ | ⟨r, rest⟩
  · rw [hseq] at h
    simp at h
  · rw [hseq] at h
    rcases r with _ | rows
    · simp at h
    · simp only at h ⊢
      by_cases hrows : rows.isEmpty = true
      · simp [hrows] at h
      · simp only [hrows, Bool.false_eq_true, if_false] at h ⊢
        by_cases hw : env.writeFails proxyFile = true
        · simp [hw] at h
        · simp only [hw, Bool.false_eq_true, if_false]
          simp only [ne_eq, List.map_eq_nil_iff]
          intro hr
          rw [hr] at hrows
          exact hrows rfl

/-- The body of `getProxy` never hands out an entry with 3 or more
failures. -/
theorem getProxyMain_some_fails (env : Env) (st : St) (p : Proxy) (st' : St)
    (h : getProxyMain env st = (.ok (some p), st')) : p.fails ≤ 2 := by
  unfold getProxyMain at h
  by_cases he : st.pm.proxies.isEmpty = true
  · rw [if_pos he] at h
    rcases hr : refreshProxies env st with ⟨ok, st₁⟩
    rw [hr] at h
    cases ok with
    | false => simp at h
    | true =>
      simp only at h
      by_cases he₁ : st₁.pm.proxies.isEmpty = true
      · simp [he₁] at h
      · rw [if_neg (by simp [he₁])] at h
        exact scanPhase_some_fails env st₁ p st' h
  · rw [if_neg (by simp [he])] at h
    exact scanPhase_some_fails env st p st' h

/-- The body of `getProxy` returns `null` only with an empty pool, as
long as persisting the cache does not throw. -/
theorem getProxyMain_none (env : Env) (st : St) (st' : St)
    (hcw : env.writeFails proxyFile = false)
    (h : getProxyMain env st = (.ok none, st')) : st'.pm.proxies = [] := by
  unfold getProxyMain at h
  by_cases he : st.pm.proxies.isEmpty = true
  · rw [if_pos he] at h
    rcases hr : refreshProxies env st with ⟨ok, st₁⟩
    have hrw := hr
    cases ok with
    | false =>
      rw [hr] at h
      simp only [Prod.mk.injEq] at h
      have hpm : (refreshProxies env st).2.pm = st.pm :=
        refreshProxies_false_pm env st hcw (by rw [hrw])
      rw [hrw] at hpm
      have hpm2 : st₁.pm = st.pm := hpm
      rw [← h.2, hpm2]
      exact List.isEmpty_iff.mp he
    | true =>
      rw [hr] at h
      simp only at h
      by_cases he₁ : st₁.pm.proxies.isEmpty = true
      · have := refreshProxies_true_nonempty env st (by rw [hrw])
        rw [hrw] at this
        exact absurd (List.isEmpty_iff.mp he₁) this
      · rw [if_neg (by simp [he₁])] at h
        exact scanPhase_none env st₁ st' h
  · rw [if_neg (by simp [he])] at h
    exact scanPhase_none env st st' h

/-- Claim C6 (amended): `getProxy` never returns an entry whose (current)
failure count is 3 or more; provided persisting the proxy cache does not
throw, it returns `null` only when the pool is empty afterwards; when the
whole fresh, nonempty pool is exhausted and the round-robin index is in
range, every failure count is reset to zero and the first entry is
returned; but when an eviction in `markProxyFailed` has left the index out
of range of the (fresh, nonempty) pool, `getProxy` throws a `TypeError`
instead — no reset, no entry, no `null`. -/
theorem getProxy_selection (env : Env) (cfg : Config) (st : St)
    (hcw : env.writeFails proxyFile = false) :
    (∀ p st', getProxy env cfg st = (.ok (some p), st') → p.fails ≤ 2)
    ∧ (∀ st', getProxy env cfg st = (.ok none, st') → st'.pm.proxies = [])
    ∧ (env.now - st.pm.lastRefresh ≤ cfg.proxyRefreshInterval →
        st.pm.proxies ≠ [] →
        st.pm.currentIndex < st.pm.proxies.length →
        (∀ q ∈ st.pm.proxies, 3 ≤ q.fails) →
        getProxy env cfg st =
          (.ok (st.pm.proxies.map (fun q => { q with fails := 0 })).head?,
           { st with pm := ⟨st.pm.proxies.map (fun q => { q with fails := 0 }),
                            st.pm.currentIndex, st.pm.lastRefresh⟩ }))
    ∧ (env.now - st.pm.lastRefresh ≤ cfg.proxyRefreshInterval →
        st.pm.proxies ≠ [] →
        st.pm.proxies.length ≤ st.pm.currentIndex →
        getProxy env cfg st =
          (.error (), { st with pm := { st.pm with
              currentIndex := (st.pm.currentIndex + 1) % st.pm.proxies.length } })) := by
  refine ⟨?_, ?_, ?_, ?_⟩
  · intro p st' h
    unfold getProxy at h
    by_cases hi : env.now - st.pm.lastRefresh > cfg.proxyRefreshInterval
    · rw [if_pos hi] at h
      rcases hr : refreshProxies env st with ⟨ok, st₁⟩
      rw [hr] at h
      cases ok with
      | false => simp at h
      | true => exact getProxyMain_some_fails env st₁ p st' h
    · rw [if_neg hi] at h
      exact getProxyMain_some_fails env st p st' h
  · intro st' h
    unfold getProxy at h
    by_cases hi : env.now - st.pm.lastRefresh > cfg.proxyRefreshInterval
    · rw [if_pos hi] at h
      rcases hr : refreshProxies env st with ⟨ok, st₁⟩
      rw [hr] at h
      cases ok with
      | false => simp at h
      | true => exact getProxyMain_none env st₁ st' hcw h
    · rw [if_neg hi] at h
      exact getProxyMain_none env st st' hcw h
  · intro hfresh hne hidx h3
    unfold getProxy
    rw [if_neg (by omega)]
    unfold getProxyMain
    rw [if_neg (by simp [List.isEmpty_iff]; exact hne)]
    unfold scanPhase
    rw [scanLoop_all_failed env st.pm.proxies h3 st.pm.proxies.length
      st.pm.currentIndex hidx]
    simp only [Nat.add_mod_right, Nat.mod_eq_of_lt hidx]
    rcases hpool : st.pm.proxies with _ | ⟨q, rest⟩
    · exact absurd hpool hne
    · simp only [List.map_cons, List.head?_cons]
  · intro hfresh hne hidx
    unfold getProxy
    rw [if_neg (by omega)]
    unfold getProxyMain
    rw [if_neg (by simp [List.isEmpty_iff]; exact hne)]
    unfold scanPhase
    rw [scanLoop_oob env st.pm.proxies st.pm.currentIndex st.pm.proxies.length
      (by intro h0; exact hne (List.length_eq_zero.mp h0)) hidx]

/-- Witness for the amended C6 at concrete pools: (reset clause) two
entries, both with at least 3 failures, fresh list, index in range — all
counts reset and the first entry is returned; (TypeError clause) a
one-entry exhausted pool with `currentIndex = 1` left by an eviction —
`getProxy` throws, stepping the index. -/
theorem getProxy_selection_witness :
    (getProxy ⟨0, fun _ => false, fun _ => false, fun _ => false, fun _ => false⟩ cfgC3
        ⟨⟨fun _ => false, fun _ => 0⟩,
          ⟨[⟨"1.1.1.1", "80", 3, 0⟩, ⟨"2.2.2.2", "81", 4, 0⟩], 1, 0⟩,
          [], [], CacheLoad.absent⟩ =
      (.ok (([⟨"1.1.1.1", "80", 3, 0⟩, ⟨"2.2.2.2", "81", 4, 0⟩] :
              List Proxy).map (fun q => { q with fails := 0 })).head?,
       { (⟨⟨fun _ => false, fun _ => 0⟩,
            ⟨[⟨"1.1.1.1", "80", 3, 0⟩, ⟨"2.2.2.2", "81", 4, 0⟩], 1, 0⟩,
            [], [], CacheLoad.absent⟩ : St) with
          pm := ⟨([⟨"1.1.1.1", "80", 3, 0⟩, ⟨"2.2.2.2", "81", 4, 0⟩] :
                  List Proxy).map (fun q => { q with fails := 0 }), 1, 0⟩ }))
    ∧ (getProxy ⟨0, fun _ => false, fun _ => false, fun _ => false, fun _ => false⟩ cfgC3
        ⟨⟨fun _ => false, fun _ => 0⟩,
          ⟨[⟨"2.2.2.2", "81", 3, 0⟩], 1, 0⟩,
          [], [], CacheLoad.absent⟩ =
      (.error (), { (⟨⟨fun _ => false, fun _ => 0⟩,
            ⟨[⟨"2.2.2.2", "81", 3, 0⟩], 1, 0⟩,
            [], [], CacheLoad.absent⟩ : St) with
          pm := { (⟨[⟨"2.2.2.2", "81", 3, 0⟩], 1, 0⟩ : PMState) with
              currentIndex := (1 + 1) % ([⟨"2.2.2.2", "81", 3, 0⟩] :
                List Proxy).length } })) :=
  ⟨(getProxy_selection ⟨0, fun _ => false, fun _ => false, fun _ => false, fun _ => false⟩
      cfgC3
      ⟨⟨fun _ => false, fun _ => 0⟩,
        ⟨[⟨"1.1.1.1", "80", 3, 0⟩, ⟨"2.2.2.2", "81", 4, 0⟩], 1, 0⟩,
        [], [], CacheLoad.absent⟩
      (by decide)).2.2.1 (by decide) (by decide) (by decide) (by decide),
   (getProxy_selection ⟨0, fun _ => false, fun _ => false, fun _ => false, fun _ => false⟩
      cfgC3
      ⟨⟨fun _ => false, fun _ => 0⟩,
        ⟨[⟨"2.2.2.2", "81", 3, 0⟩], 1, 0⟩,
        [], [], CacheLoad.absent⟩
      (by decide)).2.2.2 (by decide) (by decide) (by decide)⟩

/-- Claim C6 (counterexamples, refuting two of its clauses).  (a) With an
empty pool, a fresh timestamp, a successful scrape, but a cache file that
cannot be written, `getProxy` returns `null` although the pool is nonempty
afterwards — refuting "returns null only when the pool is empty after a
refresh attempt".  (b) Marking a 4-failure entry of a two-entry pool
evicts it, leaving `currentIndex = 1` over the surviving one-entry pool
whose entry has 3 failures; the next `getProxy` on that reachable state
throws a `TypeError` (`proxy.fails` on `undefined`) — refuting "if every
entry is exhausted, resets all failure counts to zero and returns the
first entry". -/
theorem getProxy_null_nonempty_pool :
    ((getProxy ⟨0, fun _ => false, fun p => p = proxyFile, fun _ => false, fun _ => false⟩
        cfgC3
        ⟨⟨fun _ => false, fun _ => 0⟩, ⟨[], 0, 0⟩,
          [some [("1.2.3.4", "80")]], [], CacheLoad.absent⟩).1 = .ok none
    ∧ (getProxy ⟨0, fun _ => false, fun p => p = proxyFile, fun _ => false, fun _ => false⟩
        cfgC3
        ⟨⟨fun _ => false, fun _ => 0⟩, ⟨[], 0, 0⟩,
          [some [("1.2.3.4", "80")]], [], CacheLoad.absent⟩).2.pm.proxies =
      [⟨"1.2.3.4", "80", 0, 0⟩])
    ∧ ((markProxyFailed ⟨0, fun _ => false, fun _ => false, fun _ => false, fun _ => false⟩
          ⟨"1.1.1.1", "80", 4, 0⟩
          ⟨⟨fun _ => false, fun _ => 0⟩,
            ⟨[⟨"1.1.1.1", "80", 4, 0⟩, ⟨"2.2.2.2", "81", 3, 0⟩], 1, 0⟩,
            [], [], CacheLoad.absent⟩).2.1.pm.proxies = [⟨"2.2.2.2", "81", 3, 0⟩]
    ∧ (markProxyFailed ⟨0, fun _ => false, fun _ => false, fun _ => false, fun _ => false⟩
          ⟨"1.1.1.1", "80", 4, 0⟩
          ⟨⟨fun _ => false, fun _ => 0⟩,
            ⟨[⟨"1.1.1.1", "80", 4, 0⟩, ⟨"2.2.2.2", "81", 3, 0⟩], 1, 0⟩,
            [], [], CacheLoad.absent⟩).2.1.pm.currentIndex = 1
    ∧ (getProxy ⟨0, fun _ => false, fun _ => false, fun _ => false, fun _ => false⟩ cfgC3
        (markProxyFailed ⟨0, fun _ => false, fun _ => false, fun _ => false, fun _ => false⟩
          ⟨"1.1.1.1", "80", 4, 0⟩
          ⟨⟨fun _ => false, fun _ => 0⟩,
            ⟨[⟨"1.1.1.1", "80", 4, 0⟩, ⟨"2.2.2.2", "81", 3, 0⟩], 1, 0⟩,
            [], [], CacheLoad.absent⟩).2.1).1 = .error ()) :=
  ⟨⟨rfl, by decide⟩, by decide, by decide, rfl⟩

/-! ## Claim C5: resilient fetch -/

/-- The network outcome carried by a fetch event, `none` for non-fetch
events. -/
def fetchOutcomeOf : Ev → Option (Option Resp)
  | .fetchProxied _ _ o => some o
  | .fetchDirect o => some o
  | _ => none

/-- Is this event a proxied fetch? -/
def isFetchProxied : Ev → Bool
  | .fetchProxied _ _ _ => true
  | _ => false

/-- Number of proxied fetch attempts recorded in a trace. -/
def proxiedCount (tr : List Ev) : Nat :=
  tr.countP isFetchProxied

/-- A failing exchange: transport error or non-2xx status. -/
def isFailOutcome : Option Resp → Bool
  | none => true
  | some r => !r.ok

/-- With a writable cache file, `markProxyFailed` never throws. -/
theorem markProxyFailed_not_thrown (env : Env) (p : Proxy) (st : St)
    (hcw : env.writeFails proxyFile = false) :
    (markProxyFailed env p st).1 = false := by
  unfold markProxyFailed
  rcases h1 : st.pm.proxies.findIdx? (fun q => q.ip = p.ip && q.port = p.port) with _ | i
  · rw [h1]
  · rw [h1]
    simp only
    rcases h2 : st.pm.proxies[i]? with _ | q
    · rfl
    · simp [hcw]

/-- `markProxyFailed` emits either nothing (entry not found) or exactly
the one `markedFailed` event. -/
theorem markProxyFailed_trace (env : Env) (p : Proxy) (st : St) :
    (markProxyFailed env p st).2.2 = [] ∨
    (markProxyFailed env p st).2.2 = [Ev.markedFailed p.ip p.port] := by
  unfold markProxyFailed
  rcases h1 : st.pm.proxies.findIdx? (fun q => q.ip = p.ip && q.port = p.port) with _ | i
  · rw [h1]
    exact Or.inl rfl
  · rw [h1]
    simp only
    rcases h2 : st.pm.proxies[i]? with _ | q
    · exact Or.inl rfl
    · simp only
      by_cases hw : env.writeFails proxyFile = true
      · simp [hw]
      · simp [hw]

/-- When the marked proxy matches some pool entry, the `markedFailed`
event is emitted. -/
theorem markProxyFailed_trace_found (env : Env) (p : Proxy) (st : St)
    (hq : ∃ q ∈ st.pm.proxies, q.ip = p.ip ∧ q.port = p.port) :
    (markProxyFailed env p st).2.2 = [Ev.markedFailed p.ip p.port] := by
  unfold markProxyFailed
  rcases h1 : st.pm.proxies.findIdx? (fun q => q.ip = p.ip && q.port = p.port) with _ | i
  · exfalso
    rw [List.findIdx?_eq_none_iff] at h1
    rcases hq with ⟨q, hmem, hip, hport⟩
    have := h1 q hmem
    simp [hip, hport] at this
  · rw [h1]
    simp only
    have hg := List.findIdx?_eq_some_iff_getElem.mp h1
    rcases hg with ⟨hlt, -, -⟩
    rw [List.getElem?_eq_getElem hlt]
    simp only
    by_cases hw : env.writeFails proxyFile = true
    · simp [hw]
    · simp [hw]

/-- A proxy selected by the scan is a member of the updated pool. -/
theorem scanLoop_found_mem (env : Env) (pool : List Proxy) :
    ∀ (fuel idx : Nat) (p : Proxy) (l : List Proxy) (ni : Nat),
      scanLoop env pool idx fuel = ScanRes.found p l ni → p ∈ l := by
  intro fuel
  induction fuel with
  | zero => intro idx p l ni h; simp [scanLoop] at h
  | succ n ih =>
    intro idx p l ni h
    unfold scanLoop at h
    rcases hg : pool[idx]? with _ | q
    · rw [hg] at h
      simp at h
    · rw [hg] at h
      simp only at h
      by_cases hf : 3 ≤ q.fails
      · rw [if_pos hf] at h
        exact ih _ p l ni h
      · rw [if_neg hf] at h
        simp only [ScanRes.found.injEq] at h
        rcases h with ⟨hp, hl, -⟩
        have hlt : idx < pool.length := by
          rcases List.getElem?_eq_some.mp hg with ⟨hb, -⟩
          exact hb
        rw [← hp, ← hl]
        exact List.getElem?_mem (by
          rw [List.getElem?_set_self' ]
          rw [List.getElem?_eq_getElem hlt]
          rfl)

/-- A proxy handed out by the scan phase is in the resulting pool. -/
theorem scanPhase_mem (env : Env) (st : St) (p : Proxy) (st' : St)
    (h : scanPhase env st = (.ok (some p), st')) :
    ∃ q ∈ st'.pm.proxies, q.ip = p.ip ∧ q.port = p.port := by
  unfold scanPhase at h
  rcases hsl : scanLoop env st.pm.proxies st.pm.currentIndex st.pm.proxies.length
    with ⟨q, l, ni⟩ | ni | ni
  · rw [hsl] at h
    simp only [Prod.mk.injEq, Except.ok.injEq, Option.some.injEq] at h
    rcases h with ⟨hp, hst⟩
    refine ⟨p, ?_, rfl, rfl⟩
    rw [← hst]
    simp only
    rw [← hp]
    exact scanLoop_found_mem env st.pm.proxies _ _ q l ni hsl
  · rw [hsl] at h
    simp only at h
    rcases hpool : st.pm.proxies with _ | ⟨q, rest⟩
    · rw [hpool] at h
      simp at h
    · rw [hpool] at h
      simp only [List.map_cons, Prod.mk.injEq, Except.ok.injEq, Option.some.injEq] at h
      rcases h with ⟨hp, hst⟩
      refine ⟨p, ?_, rfl, rfl⟩
      rw [← hst]
      simp only
      rw [← hp]
      exact List.mem_cons_self _ _
  · rw [hsl] at h
    simp at h

/-- A proxy handed out by `getProxy` matches an entry of the pool it
leaves behind. -/
theorem getProxy_mem (env : Env) (cfg : Config) (st : St) (p : Proxy) (st' : St)
    (h : getProxy env cfg st = (.ok (some p), st')) :
    ∃ q ∈ st'.pm.proxies, q.ip = p.ip ∧ q.port = p.port := by
  unfold getProxy at h
  by_cases hi : env.now - st.pm.lastRefresh > cfg.proxyRefreshInterval
  · rw [if_pos hi] at h
    rcases hr : refreshProxies env st with ⟨ok, st₁⟩
    rw [hr] at h
    cases ok with
    | false => simp at h
    | true =>
      simp only at h
      unfold getProxyMain at h
      by_cases he : st₁.pm.proxies.isEmpty = true
      · rw [if_pos he] at h
        rcases hr₁ : refreshProxies env st₁ with ⟨ok₁, st₂⟩
        rw [hr₁] at h
        cases ok₁ with
        | false => simp at h
        | true =>
          simp only at h
          by_cases he₁ : st₂.pm.proxies.isEmpty = true
          · simp [he₁] at h
          · rw [if_neg (by simp [he₁])] at h
            exact scanPhase_mem env st₂ p st' h
      · rw [if_neg (by simp [he])] at h
        exact scanPhase_mem env st₁ p st' h
  · rw [if_neg hi] at h
    unfold getProxyMain at h
    by_cases he : st.pm.proxies.isEmpty = true
    · rw [if_pos he] at h
      rcases hr₁ : refreshProxies env st with ⟨ok₁, st₂⟩
      rw [hr₁] at h
      cases ok₁ with
      | false => simp at h
      | true =>
        simp only at h
        by_cases he₁ : st₂.pm.proxies.isEmpty = true
        · simp [he₁] at h
        · rw [if_neg (by simp [he₁])] at h
          exact scanPhase_mem env st₂ p st' h
    · rw [if_neg (by simp [he])] at h
      exact scanPhase_mem env st p st' h

/-- `fetchOnce` does not touch the proxy-manager state. -/
theorem fetchOnce_pm (st : St) : (fetchOnce st).2.pm = st.pm := by
  unfold fetchOnce
  rcases st.fetchSeq with _ | ⟨o, rest⟩ <;> rfl

/-- The grammar of retry-loop traces (with a writable cache file): a
failed attempt prepends its catch-block events — the optional marking of
the previous attempt's proxy when `getProxy` itself threw, or the
mandatory marking of the attempt's own failed proxy — followed by the
backoff sleep; a terminal attempt ends the trace with the returned
result. -/
inductive LoopTrace : List Ev → LoopRes → Prop
  | empty_fell : LoopTrace [] LoopRes.fellThrough
  | slept_cont {tr : List Ev} {out : LoopRes} : LoopTrace tr out →
      LoopTrace (Ev.slept :: tr) out
  | marked_slept_cont (ip port : String) {tr : List Ev} {out : LoopRes} :
      LoopTrace tr out →
      LoopTrace (Ev.markedFailed ip port :: Ev.slept :: tr) out
  | null_direct (o : Option Resp) :
      LoopTrace [Ev.proxyNull, Ev.fetchDirect o]
        (LoopRes.ret (match o with | none => Except.error () | some r => Except.ok r))
  | proxied_ok (ip port : String) (r : Resp) (hok : r.ok = true) :
      LoopTrace [Ev.gotProxy ip port, Ev.fetchProxied ip port (some r)]
        (LoopRes.ret (Except.ok r))
  | proxied_fail (ip port : String) (o : Option Resp)
      (hf : isFailOutcome o = true) {tr : List Ev} {out : LoopRes} :
      LoopTrace tr out →
      LoopTrace (Ev.gotProxy ip port :: Ev.fetchProxied ip port o ::
        Ev.markedFailed ip port :: Ev.slept :: tr) out

/-- The catch block for a proxy that matches a pool entry: with a
writable cache, the proxy is marked, the backoff sleep happens, and the
loop continues. -/
theorem fwpFail_found_eq (env : Env)
    (loop : Option Proxy → St → LoopRes × St × List Ev) (p : Proxy) (st : St)
    (hcw : env.writeFails proxyFile = false)
    (hq : ∃ q ∈ st.pm.proxies, q.ip = p.ip ∧ q.port = p.port) :
    fwpFail env loop (some p) st =
      ((loop (some p) (markProxyFailed env p st).2.1).1,
       (loop (some p) (markProxyFailed env p st).2.1).2.1,
       Ev.markedFailed p.ip p.port :: Ev.slept ::
         (loop (some p) (markProxyFailed env p st).2.1).2.2) := by
  unfold fwpFail
  rcases hm : markProxyFailed env p st with ⟨threw, st₁, trm⟩
  have hnt := markProxyFailed_not_thrown env p st hcw
  rw [hm] at hnt
  simp only at hnt
  subst hnt
  have htr := markProxyFailed_trace_found env p st hq
  rw [hm] at htr
  simp only at htr
  subst htr
  simp only
  rw [hm]
  rfl

/-- With a writable cache file, every trace the retry loop can produce is
generated by the grammar, paired with the loop's own result. -/
theorem fwpLoop_trace (env : Env) (cfg : Config)
    (hcw : env.writeFails proxyFile = false) :
    ∀ (fuel : Nat) (lastProxy : Option Proxy) (st : St),
      LoopTrace (fwpLoop env cfg fuel lastProxy st).2.2
        (fwpLoop env cfg fuel lastProxy st).1 := by
  intro fuel
  induction fuel with
  | zero => intro lastProxy st; exact LoopTrace.empty_fell
  | succ n ih =>
    intro lastProxy st
    unfold fwpLoop
    rcases hg : getProxy env cfg st with ⟨gres, st₁⟩
    rcases gres with _ | op
    · -- getProxy threw: catch with the previous attempt's proxy
      simp only
      unfold fwpFail
      rcases lastProxy with _ | p
      · simp only
        rcases hl : fwpLoop env cfg n none st₁ with ⟨res, st₂, tr⟩
        try rw [hl]
        have h := ih none st₁
        rw [hl] at h
        exact LoopTrace.slept_cont h
      · simp only
        rcases hm : markProxyFailed env p st₁ with ⟨threw, st₃, trm⟩
        have hnt := markProxyFailed_not_thrown env p st₁ hcw
        rw [hm] at hnt
        simp only at hnt
        subst hnt
        have htr := markProxyFailed_trace env p st₁
        rw [hm] at htr
        simp only at htr
        simp only
        rcases hl : fwpLoop env cfg n (some p) st₃ with ⟨res, st₂, tr⟩
        try rw [hl]
        have h := ih (some p) st₃
        rw [hl] at h
        rcases htr with h0 | h1
        · subst h0
          simp only [List.nil_append]
          exact LoopTrace.slept_cont h
        · subst h1
          exact LoopTrace.marked_slept_cont p.ip p.port h
    · rcases op with _ | p
      · -- null pool: immediate direct fetch, returned raw
        simp only
        rcases hf : fetchOnce st₁ with ⟨o, st₂⟩
        rcases o with _ | r
        · exact LoopTrace.null_direct none
        · exact LoopTrace.null_direct (some r)
      · -- an attempt through proxy p
        simp only
        rcases hf : fetchOnce st₁ with ⟨o, st₂⟩
        have hmem : ∃ q ∈ st₂.pm.proxies, q.ip = p.ip ∧ q.port = p.port := by
          have h₁ := getProxy_mem env cfg st p st₁ hg
          have h₂ := fetchOnce_pm st₁
          rw [hf] at h₂
          simp only at h₂
          rw [h₂]
          exact h₁
        rcases o with _ | r
        · rw [fwpFail_found_eq env _ p st₂ hcw hmem]
          simp only
          exact LoopTrace.proxied_fail p.ip p.port none rfl
            (ih (some p) (markProxyFailed env p st₂).2.1)
        · by_cases hok : r.ok = true
          · simp only [hok, if_true]
            exact LoopTrace.proxied_ok p.ip p.port r hok
          · simp only [hok, Bool.false_eq_true, if_false]
            rw [fwpFail_found_eq env _ p st₂ hcw hmem]
            simp only
            exact LoopTrace.proxied_fail p.ip p.port (some r)
              (by simp [isFailOutcome, hok])
              (ih (some p) (markProxyFailed env p st₂).2.1)

/-- The retry loop performs at most `fuel` proxied fetches. -/
theorem fwpLoop_count (env : Env) (cfg : Config) :
    ∀ (fuel : Nat) (lastProxy : Option Proxy) (st : St),
      proxiedCount (fwpLoop env cfg fuel lastProxy st).2.2 ≤ fuel := by
  intro fuel
  induction fuel with
  | zero => intro lastProxy st; simp [fwpLoop, proxiedCount]
  | succ n ih =>
    intro lastProxy st
    unfold fwpLoop
    rcases hg : getProxy env cfg st with ⟨gres, st₁⟩
    rcases gres with _ | op
    · simp only
      unfold fwpFail
      rcases lastProxy with _ | p
      · simp only
        rcases hl : fwpLoop env cfg n none st₁ with ⟨res, st₂, tr⟩
        have h := ih none st₁
        rw [hl] at h
        simp [proxiedCount, List.countP_cons, isFetchProxied] at h ⊢ <;> omega
      · simp only
        rcases hm : markProxyFailed env p st₁ with ⟨threw, st₃, trm⟩
        have htr := markProxyFailed_trace env p st₁
        rw [hm] at htr
        simp only at htr
        cases threw with
        | true =>
          simp only
          rcases htr with h0 | h1
          · subst h0; simp [proxiedCount] <;> omega
          · subst h1; simp [proxiedCount, List.countP_cons, isFetchProxied] <;> omega
        | false =>
          simp only
          rcases hl : fwpLoop env cfg n (some p) st₃ with ⟨res, st₂, tr⟩
          have h := ih (some p) st₃
          rw [hl] at h
          rcases htr with h0 | h1
          · subst h0
            simp [proxiedCount, List.countP_cons, isFetchProxied] at h ⊢ <;> omega
          · subst h1
            simp [proxiedCount, List.countP_cons, isFetchProxied] at h ⊢ <;> omega
    · rcases op with _ | p
      · simp only
        rcases hf : fetchOnce st₁ with ⟨o, st₂⟩
        rcases o with _ | r
        · simp [proxiedCount, List.countP_cons, isFetchProxied]
        · simp [proxiedCount, List.countP_cons, isFetchProxied]
      · simp only
        rcases hf : fetchOnce st₁ with ⟨o, st₂⟩
        rcases o with _ | r
        · unfold fwpFail
          simp only
          rcases hm : markProxyFailed env p st₂ with ⟨threw, st₃, trm⟩
          have htr := markProxyFailed_trace env p st₂
          rw [hm] at htr
          simp only at htr
          cases threw with
          | true =>
            simp only
            rcases htr with h0 | h1
            · subst h0; simp [proxiedCount, List.countP_cons, isFetchProxied] <;> omega
            · subst h1; simp [proxiedCount, List.countP_cons, isFetchProxied] <;> omega
          | false =>
            simp only
            rcases hl : fwpLoop env cfg n (some p) st₃ with ⟨res, st₂x, tr⟩
            have h := ih (some p) st₃
            rw [hl] at h
            rcases htr with h0 | h1
            · subst h0
              simp [proxiedCount, List.countP_cons, isFetchProxied] at h ⊢ <;> omega
            · subst h1
              simp [proxiedCount, List.countP_cons, isFetchProxied] at h ⊢ <;> omega
        · by_cases hok : r.ok = true
          · simp only [hok, if_true]
            simp [proxiedCount, List.countP_cons, isFetchProxied]
          · simp only [hok, Bool.false_eq_true, if_false]
            unfold fwpFail
            simp only
            rcases hm : markProxyFailed env p st₂ with ⟨threw, st₃, trm⟩
            have htr := markProxyFailed_trace env p st₂
            rw [hm] at htr
            simp only at htr
            cases threw with
            | true =>
              simp only
              rcases htr with h0 | h1
              · subst h0; simp [proxiedCount, List.countP_cons, isFetchProxied] <;> omega
              · subst h1; simp [proxiedCount, List.countP_cons, isFetchProxied] <;> omega
            | false =>
              simp only
              rcases hl : fwpLoop env cfg n (some p) st₃ with ⟨res, st₂x, tr⟩
              have h := ih (some p) st₃
              rw [hl] at h
              rcases htr with h0 | h1
              · subst h0
                simp [proxiedCount, List.countP_cons, isFetchProxied] at h ⊢ <;> omega
              · subst h1
                simp [proxiedCount, List.countP_cons, isFetchProxied] at h ⊢ <;> omega

/-- In any loop trace, a failed proxied fetch is immediately followed by
the marking of that proxy and the backoff sleep. -/
theorem loopTrace_mark_backoff {tr : List Ev} {out : LoopRes} (h : LoopTrace tr out) :
    ∀ (n : Nat) (ip port : String) (o : Option Resp),
      tr[n]? = some (Ev.fetchProxied ip port o) → isFailOutcome o = true →
      tr[n + 1]? = some (Ev.markedFailed ip port) ∧ tr[n + 2]? = some Ev.slept := by
  induction h with
  | empty_fell => intro n ip port o hn _; simp at hn
  | slept_cont _ ih =>
    intro n ip port o hn hf
    rcases n with _ | n
    · simp at hn
    · simp only [List.getElem?_cons_succ] at hn ⊢
      exact ih n ip port o hn hf
  | marked_slept_cont ip' port' _ ih =>
    intro n ip port o hn hf
    rcases n with _ | _ | n
    · simp at hn
    · simp at hn
    · simp only [List.getElem?_cons_succ] at hn ⊢
      exact ih n ip port o hn hf
  | null_direct o' =>
    intro n ip port o hn hf
    rcases n with _ | _ | n
    · simp at hn
    · simp at hn
    · simp at hn
  | proxied_ok ip' port' r hok =>
    intro n ip port o hn hf
    rcases n with _ | _ | n
    · simp at hn
    · simp only [List.getElem?_cons_succ, List.getElem?_cons_zero,
        Option.some.injEq, Ev.fetchProxied.injEq] at hn
      rcases hn with ⟨-, -, ho⟩
      rw [← ho] at hf
      simp [isFailOutcome, hok] at hf
    · simp at hn
  | proxied_fail ip' port' o' hf' _ ih =>
    intro n ip port o hn hf
    rcases n with _ | _ | _ | _ | n
    · simp at hn
    · simp only [List.getElem?_cons_succ, List.getElem?_cons_zero,
        Option.some.injEq, Ev.fetchProxied.injEq] at hn
      rcases hn with ⟨hip, hport, -⟩
      rw [← hip, ← hport]
      exact ⟨by simp, by simp⟩
    · simp at hn
    · simp at hn
    · simp only [List.getElem?_cons_succ] at hn ⊢
      exact ih n ip port o hn hf

/-- In any loop trace, a successful (2xx) fetch is the final event and its
response is the loop's returned value. -/
theorem loopTrace_first_ok {tr : List Ev} {out : LoopRes} (h : LoopTrace tr out) :
    ∀ (n : Nat) (e : Ev) (r : Resp),
      tr[n]? = some e → fetchOutcomeOf e = some (some r) → r.ok = true →
      tr.length = n + 1 ∧ out = LoopRes.ret (Except.ok r) := by
  induction h with
  | empty_fell => intro n e r hn _ _; simp at hn
  | slept_cont _ ih =>
    intro n e r hn ho hok
    rcases n with _ | n
    · simp only [List.getElem?_cons_zero, Option.some.injEq] at hn
      rw [← hn] at ho
      simp [fetchOutcomeOf] at ho
    · simp only [List.getElem?_cons_succ] at hn
      rcases ih n e r hn ho hok with ⟨hlen, houtx⟩
      exact ⟨by simp only [List.length_cons]; omega, houtx⟩
  | marked_slept_cont ip' port' _ ih =>
    intro n e r hn ho hok
    rcases n with _ | _ | n
    · simp only [List.getElem?_cons_zero, Option.some.injEq] at hn
      rw [← hn] at ho
      simp [fetchOutcomeOf] at ho
    · simp only [List.getElem?_cons_succ, List.getElem?_cons_zero, Option.some.injEq] at hn
      rw [← hn] at ho
      simp [fetchOutcomeOf] at ho
    · simp only [List.getElem?_cons_succ] at hn
      rcases ih n e r hn ho hok with ⟨hlen, houtx⟩
      exact ⟨by simp only [List.length_cons]; omega, houtx⟩
  | null_direct o' =>
    intro n e r hn ho hok
    rcases n with _ | _ | n
    · simp only [List.getElem?_cons_zero, Option.some.injEq] at hn
      rw [← hn] at ho
      simp [fetchOutcomeOf] at ho
    · simp only [List.getElem?_cons_succ, List.getElem?_cons_zero, Option.some.injEq] at hn
      rw [← hn] at ho
      simp only [fetchOutcomeOf, Option.some.injEq] at ho
      rw [ho]
      exact ⟨rfl, rfl⟩
    · simp at hn
  | proxied_ok ip' port' r' hok' =>
    intro n e r hn ho hok
    rcases n with _ | _ | n
    · simp only [List.getElem?_cons_zero, Option.some.injEq] at hn
      rw [← hn] at ho
      simp [fetchOutcomeOf] at ho
    · simp only [List.getElem?_cons_succ, List.getElem?_cons_zero, Option.some.injEq] at hn
      rw [← hn] at ho
      simp only [fetchOutcomeOf, Option.some.injEq] at ho
      rw [← ho]
      exact ⟨rfl, rfl⟩
    · simp at hn
  | proxied_fail ip' port' o' hf' _ ih =>
    intro n e r hn ho hok
    rcases n with _ | _ | _ | _ | n
    · simp only [List.getElem?_cons_zero, Option.some.injEq] at hn
      rw [← hn] at ho
      simp [fetchOutcomeOf] at ho
    · simp only [List.getElem?_cons_succ, List.getElem?_cons_zero, Option.some.injEq] at hn
      rw [← hn] at ho
      simp only [fetchOutcomeOf, Option.some.injEq] at ho
      rw [ho] at hf'
      simp [isFailOutcome, hok] at hf'
    · simp only [List.getElem?_cons_succ, List.getElem?_cons_zero, Option.some.injEq] at hn
      rw [← hn] at ho
      simp [fetchOutcomeOf] at ho
    · simp only [List.getElem?_cons_succ, List.getElem?_cons_zero, Option.some.injEq] at hn
      rw [← hn] at ho
      simp [fetchOutcomeOf] at ho
    · simp only [List.getElem?_cons_succ] at hn
      rcases ih n e r hn ho hok with ⟨hlen, houtx⟩
      exact ⟨by simp only [List.length_cons]; omega, houtx⟩

/-- In any loop trace, a `proxyNull` is immediately followed by a direct
fetch whose raw result ends the loop. -/
theorem loopTrace_null {tr : List Ev} {out : LoopRes} (h : LoopTrace tr out) :
    ∀ (n : Nat), tr[n]? = some Ev.proxyNull →
      ∃ o, tr[n + 1]? = some (Ev.fetchDirect o) ∧ tr.length = n + 2 ∧
        out = LoopRes.ret (match o with | none => Except.error () | some r => Except.ok r) := by
  induction h with
  | empty_fell => intro n hn; simp at hn
  | slept_cont _ ih =>
    intro n hn
    rcases n with _ | n
    · simp at hn
    · simp only [List.getElem?_cons_succ] at hn ⊢
      rcases ih n hn with ⟨o, h1, h2, h3⟩
      exact ⟨o, h1, by simp [List.length_cons, h2], h3⟩
  | marked_slept_cont ip' port' _ ih =>
    intro n hn
    rcases n with _ | _ | n
    · simp at hn
    · simp at hn
    · simp only [List.getElem?_cons_succ] at hn ⊢
      rcases ih n hn with ⟨o, h1, h2, h3⟩
      exact ⟨o, h1, by simp [List.length_cons, h2], h3⟩
  | null_direct o' =>
    intro n hn
    rcases n with _ | _ | n
    · exact ⟨o', by simp, by simp, rfl⟩
    · simp at hn
    · simp at hn
  | proxied_ok ip' port' r' hok' =>
    intro n hn
    rcases n with _ | _ | n
    · simp at hn
    · simp at hn
    · simp at hn
  | proxied_fail ip' port' o' hf' _ ih =>
    intro n hn
    rcases n with _ | _ | _ | _ | n
    · simp at hn
    · simp at hn
    · simp at hn
    · simp at hn
    · simp only [List.getElem?_cons_succ] at hn ⊢
      rcases ih n hn with ⟨o, h1, h2, h3⟩
      exact ⟨o, h1, by simp [List.length_cons, h2], h3⟩

/-- A loop that throws ends with a failing direct fetch (the null-pool
direct attempt whose rejection propagates). -/
theorem loopTrace_error_tail {tr : List Ev} {out : LoopRes} (h : LoopTrace tr out) :
    out = LoopRes.ret (Except.error ()) →
    ∃ o, tr.getLast? = some (Ev.fetchDirect o) ∧ isFailOutcome o = true := by
  induction h with
  | empty_fell => intro hout; exact absurd hout (by simp)
  | slept_cont hsub ih =>
    intro hout
    rcases ih hout with ⟨o, h1, h2⟩
    refine ⟨o, ?_, h2⟩
    rename_i tr' out'
    cases tr' with
    | nil => simp at h1
    | cons y ys =>
      rw [List.getLast?_cons_cons]
      exact h1
  | marked_slept_cont ip' port' hsub ih =>
    intro hout
    rcases ih hout with ⟨o, h1, h2⟩
    refine ⟨o, ?_, h2⟩
    rename_i tr' out'
    cases tr' with
    | nil => simp at h1
    | cons y ys =>
      rw [List.getLast?_cons_cons, List.getLast?_cons_cons]
      exact h1
  | null_direct o' =>
    intro hout
    rcases o' with _ | r
    · exact ⟨none, by simp [List.getLast?_cons_cons], rfl⟩
    · simp at hout
  | proxied_ok ip' port' r' hok' =>
    intro hout
    simp at hout
  | proxied_fail ip' port' o' hf' hsub ih =>
    intro hout
    rcases ih hout with ⟨o, h1, h2⟩
    refine ⟨o, ?_, h2⟩
    rename_i tr' out'
    cases tr' with
    | nil => simp at h1
    | cons y ys =>
      rw [List.getLast?_cons_cons, List.getLast?_cons_cons,
        List.getLast?_cons_cons, List.getLast?_cons_cons]
      exact h1

/-- A loop that fell through (all attempts exhausted) saw no successful
fetch and no null pool. -/
theorem loopTrace_fell {tr : List Ev} {out : LoopRes} (h : LoopTrace tr out) :
    out = LoopRes.fellThrough →
    (∀ (n : Nat) (e : Ev) (r : Resp),
        tr[n]? = some e → fetchOutcomeOf e = some (some r) → r.ok = false)
    ∧ (∀ n : Nat, tr[n]? ≠ some Ev.proxyNull) := by
  induction h with
  | empty_fell => intro _; exact ⟨fun n e r hn _ => by simp at hn, fun n => by simp⟩
  | slept_cont _ ih =>
    intro hout
    rcases ih hout with ⟨h1, h2⟩
    constructor
    · intro n e r hn ho
      rcases n with _ | n
      · simp only [List.getElem?_cons_zero, Option.some.injEq] at hn
        rw [← hn] at ho
        simp [fetchOutcomeOf] at ho
      · simp only [List.getElem?_cons_succ] at hn
        exact h1 n e r hn ho
    · intro n
      rcases n with _ | n
      · simp
      · simp only [List.getElem?_cons_succ]
        exact h2 n
  | marked_slept_cont ip' port' _ ih =>
    intro hout
    rcases ih hout with ⟨h1, h2⟩
    constructor
    · intro n e r hn ho
      rcases n with _ | _ | n
      · simp only [List.getElem?_cons_zero, Option.some.injEq] at hn
        rw [← hn] at ho
        simp [fetchOutcomeOf] at ho
      · simp only [List.getElem?_cons_succ, List.getElem?_cons_zero, Option.some.injEq] at hn
        rw [← hn] at ho
        simp [fetchOutcomeOf] at ho
      · simp only [List.getElem?_cons_succ] at hn
        exact h1 n e r hn ho
    · intro n
      rcases n with _ | _ | n
      · simp
      · simp
      · simp only [List.getElem?_cons_succ]
        exact h2 n
  | null_direct o' => intro hout; simp at hout
  | proxied_ok ip' port' r' hok' => intro hout; simp at hout
  | proxied_fail ip' port' o' hf' _ ih =>
    intro hout
    rcases ih hout with ⟨h1, h2⟩
    constructor
    · intro n e r hn ho
      rcases n with _ | _ | _ | _ | n
      · simp only [List.getElem?_cons_zero, Option.some.injEq] at hn
        rw [← hn] at ho
        simp [fetchOutcomeOf] at ho
      · simp only [List.getElem?_cons_succ, List.getElem?_cons_zero, Option.some.injEq] at hn
        rw [← hn] at ho
        simp only [fetchOutcomeOf, Option.some.injEq] at ho
        rw [ho] at hf'
        simp only [isFailOutcome, Bool.not_eq_true'] at hf'
        exact hf'
      · simp only [List.getElem?_cons_succ, List.getElem?_cons_zero, Option.some.injEq] at hn
        rw [← hn] at ho
        simp [fetchOutcomeOf] at ho
      · simp only [List.getElem?_cons_succ, List.getElem?_cons_zero, Option.some.injEq] at hn
        rw [← hn] at ho
        simp [fetchOutcomeOf] at ho
      · simp only [List.getElem?_cons_succ] at hn
        exact h1 n e r hn ho
    · intro n
      rcases n with _ | _ | _ | _ | n
      · simp
      · simp
      · simp
      · simp
      · simp only [List.getElem?_cons_succ]
        exact h2 n

/-- Assembly of the claim's properties for a loop that fell through to
the final direct attempt with outcome `o` and overall result `res`. -/
theorem fellThrough_props (tr : List Ev) (htrace : LoopTrace tr LoopRes.fellThrough)
    (o : Option Resp) (res : Except Unit Resp)
    (hres : res = match o with
      | none => Except.error ()
      | some r => if r.ok = true then Except.ok r else Except.error ()) :
    (res = .error () →
      ∃ oo, (tr ++ [Ev.fetchDirect o]).getLast? = some (Ev.fetchDirect oo) ∧
        isFailOutcome oo = true)
    ∧ (∀ (n : Nat) (ip port : String) (oo : Option Resp),
        (tr ++ [Ev.fetchDirect o])[n]? = some (Ev.fetchProxied ip port oo) →
        isFailOutcome oo = true →
        (tr ++ [Ev.fetchDirect o])[n + 1]? = some (Ev.markedFailed ip port) ∧
        (tr ++ [Ev.fetchDirect o])[n + 2]? = some Ev.slept)
    ∧ (∀ (n : Nat) (e : Ev) (r : Resp),
        (tr ++ [Ev.fetchDirect o])[n]? = some e →
        fetchOutcomeOf e = some (some r) → r.ok = true →
        (tr ++ [Ev.fetchDirect o]).length = n + 1 ∧ res = .ok r)
    ∧ (∀ (n : Nat), (tr ++ [Ev.fetchDirect o])[n]? = some Ev.proxyNull →
        ∃ oo, (tr ++ [Ev.fetchDirect o])[n + 1]? = some (Ev.fetchDirect oo) ∧
        (tr ++ [Ev.fetchDirect o]).length = n + 2 ∧
        res = (match oo with | none => Except.error () | some r => Except.ok r)) := by
  have hfell := loopTrace_fell htrace rfl
  refine ⟨?_, ?_, ?_, ?_⟩
  · intro herr
    refine ⟨o, List.getLast?_concat _, ?_⟩
    rcases o with _ | r
    · rfl
    · by_cases hrok : r.ok = true
      · rw [hres] at herr
        simp [hrok] at herr
      · have hro : r.ok = false := by
          revert hrok
          cases r.ok <;> simp
        simp [isFailOutcome, hro]
  · intro n ip port oo hn hfail
    rw [List.getElem?_append] at hn
    by_cases hlt : n < tr.length
    · rw [if_pos hlt] at hn
      have hm := loopTrace_mark_backoff htrace n ip port oo hn hfail
      have hb1 : n + 1 < tr.length := (List.getElem?_eq_some.mp hm.1).1
      have hb2 : n + 2 < tr.length := (List.getElem?_eq_some.mp hm.2).1
      constructor
      · rw [List.getElem?_append, if_pos hb1]
        exact hm.1
      · rw [List.getElem?_append, if_pos hb2]
        exact hm.2
    · rw [if_neg hlt] at hn
      rcases hsub : n - tr.length with _ | k
      · rw [hsub] at hn
        simp at hn
      · rw [hsub] at hn
        simp at hn
  · intro n e r hn ho hok
    rw [List.getElem?_append] at hn
    by_cases hlt : n < tr.length
    · rw [if_pos hlt] at hn
      have hbad := hfell.1 n e r hn ho
      rw [hok] at hbad
      exact absurd hbad (by simp)
    · rw [if_neg hlt] at hn
      rcases hsub : n - tr.length with _ | k
      · rw [hsub] at hn
        simp only [List.getElem?_cons_zero, Option.some.injEq] at hn
        rw [← hn] at ho
        simp only [fetchOutcomeOf, Option.some.injEq] at ho
        subst ho
        constructor
        · have hn_eq : n = tr.length := by omega
          simp [List.length_append, hn_eq]
        · rw [hres]
          simp [hok]
      · rw [hsub] at hn
        simp at hn
  · intro n hn
    rw [List.getElem?_append] at hn
    by_cases hlt : n < tr.length
    · rw [if_pos hlt] at hn
      exact absurd hn (hfell.2 n)
    · rw [if_neg hlt] at hn
      rcases hsub : n - tr.length with _ | k
      · rw [hsub] at hn
        simp at hn
      · rw [hsub] at hn
        simp at hn

/-- Claim C5 (amended): with proxying on and a writable proxy-cache file,
`fetchWithProxy` (i) throws only after at most `retries` proxied attempts
with the last network action a failing direct connection; (ii) marks the
attempt's proxy failed and waits the fixed backoff immediately after every
failed proxied exchange; (iii) returns the first successful (2xx) response
immediately, performing nothing further; and (iv) on a null proxy pool
attempts a direct connection at once and ends the call with its raw
result. -/
theorem fetchWithProxy_resilience (env : Env) (cfg : Config) (retries : Nat) (st : St)
    (hup : cfg.useProxy = true) (hcw : env.writeFails proxyFile = false) :
    ((fetchWithProxy env cfg retries st).1 = .error () →
      proxiedCount (fetchWithProxy env cfg retries st).2.2 ≤ retries ∧
      ∃ o, (fetchWithProxy env cfg retries st).2.2.getLast? = some (Ev.fetchDirect o) ∧
        isFailOutcome o = true)
    ∧ (∀ (n : Nat) (ip port : String) (o : Option Resp),
        (fetchWithProxy env cfg retries st).2.2[n]? = some (Ev.fetchProxied ip port o) →
        isFailOutcome o = true →
        (fetchWithProxy env cfg retries st).2.2[n + 1]? = some (Ev.markedFailed ip port) ∧
        (fetchWithProxy env cfg retries st).2.2[n + 2]? = some Ev.slept)
    ∧ (∀ (n : Nat) (e : Ev) (r : Resp),
        (fetchWithProxy env cfg retries st).2.2[n]? = some e →
        fetchOutcomeOf e = some (some r) → r.ok = true →
        (fetchWithProxy env cfg retries st).2.2.length = n + 1 ∧
        (fetchWithProxy env cfg retries st).1 = .ok r)
    ∧ (∀ (n : Nat), (fetchWithProxy env cfg retries st).2.2[n]? = some Ev.proxyNull →
        ∃ o, (fetchWithProxy env cfg retries st).2.2[n + 1]? = some (Ev.fetchDirect o) ∧
        (fetchWithProxy env cfg retries st).2.2.length = n + 2 ∧
        (fetchWithProxy env cfg retries st).1 =
          (match o with | none => Except.error () | some r => Except.ok r)) := by
  unfold fetchWithProxy
  rw [if_neg (by simp [hup])]
  rcases hl : fwpLoop env cfg retries none st with ⟨lres, st₁, tr⟩
  have htrace := fwpLoop_trace env cfg hcw retries none st
  rw [hl] at htrace
  have hcount := fwpLoop_count env cfg retries none st
  rw [hl] at hcount
  simp only at htrace hcount
  rcases lres with r | _
  · simp only
    refine ⟨?_, ?_, ?_, ?_⟩
    · intro herr
      subst herr
      exact ⟨hcount, loopTrace_error_tail htrace rfl⟩
    · intro n ip port o hn hf
      exact loopTrace_mark_backoff htrace n ip port o hn hf
    · intro n e rr hn ho hok
      have hres := loopTrace_first_ok htrace n e rr hn ho hok
      refine ⟨hres.1, ?_⟩
      injection hres.2 with h
    · intro n hn
      rcases loopTrace_null htrace n hn with ⟨o, h1, h2, h3⟩
      refine ⟨o, h1, h2, ?_⟩
      injection h3 with h
  · simp only
    rcases hf : fetchOnce st₁ with ⟨o, st₂⟩
    rcases o with _ | rr
    · simp only
      have hp := fellThrough_props tr htrace none (.error ()) rfl
      refine ⟨?_, hp.2.1, hp.2.2.1, hp.2.2.2⟩
      intro herr
      refine ⟨?_, hp.1 rfl⟩
      simp [proxiedCount, List.countP_append, List.countP_cons, isFetchProxied] at hcount ⊢ <;> omega
    · by_cases hok : rr.ok = true
      · simp only [hok, if_true]
        have hp := fellThrough_props tr htrace (some rr) (.ok rr) (by simp [hok])
        refine ⟨?_, hp.2.1, hp.2.2.1, hp.2.2.2⟩
        intro herr
        simp at herr
      · simp only [hok, Bool.false_eq_true, if_false]
        have hp := fellThrough_props tr htrace (some rr) (.error ()) (by simp [hok])
        refine ⟨?_, hp.2.1, hp.2.2.1, hp.2.2.2⟩
        intro herr
        refine ⟨?_, hp.1 rfl⟩
        simp [proxiedCount, List.countP_append, List.countP_cons, isFetchProxied] at hcount ⊢ <;> omega

/-- Witness for the amended C5 at a concrete world: one healthy proxy,
every fetch a transport error — the call throws only after the proxied
attempt and the final (failing) direct attempt. -/
theorem fetchWithProxy_resilience_witness :
    proxiedCount (fetchWithProxy
        ⟨0, fun _ => false, fun _ => false, fun _ => false, fun _ => false⟩
        cfgC3 1
        ⟨⟨fun _ => false, fun _ => 0⟩, ⟨[⟨"9.9.9.9", "80", 0, 0⟩], 0, 0⟩,
          [], [], CacheLoad.absent⟩).2.2 ≤ 1 ∧
    ∃ o, (fetchWithProxy
        ⟨0, fun _ => false, fun _ => false, fun _ => false, fun _ => false⟩
        cfgC3 1
        ⟨⟨fun _ => false, fun _ => 0⟩, ⟨[⟨"9.9.9.9", "80", 0, 0⟩], 0, 0⟩,
          [], [], CacheLoad.absent⟩).2.2.getLast? = some (Ev.fetchDirect o) ∧
      isFailOutcome o = true :=
  (fetchWithProxy_resilience
      ⟨0, fun _ => false, fun _ => false, fun _ => false, fun _ => false⟩
      cfgC3 1
      ⟨⟨fun _ => false, fun _ => 0⟩, ⟨[⟨"9.9.9.9", "80", 0, 0⟩], 0, 0⟩,
        [], [], CacheLoad.absent⟩
      (by decide) (by decide)).1 rfl

/-- Claim C5 (counterexample): with one healthy proxy whose exchange
suffers a transport error and a proxy-cache file that cannot be written,
`fetchWithProxy` throws from inside `markProxyFailed` — the recorded trace
is exactly proxied attempt plus marking, with no direct-connection attempt
at all — refuting "fails by throwing only after … followed by one final
direct-connection attempt". -/
theorem fetch_throws_without_direct :
    (fetchWithProxy ⟨0, fun _ => false, fun p => p = proxyFile, fun _ => false, fun _ => false⟩
        cfgC3 1
        ⟨⟨fun _ => false, fun _ => 0⟩, ⟨[⟨"1.1.1.1", "80", 0, 0⟩], 0, 0⟩,
          [], [none], CacheLoad.absent⟩).1 = .error ()
    ∧ (fetchWithProxy ⟨0, fun _ => false, fun p => p = proxyFile, fun _ => false, fun _ => false⟩
        cfgC3 1
        ⟨⟨fun _ => false, fun _ => 0⟩, ⟨[⟨"1.1.1.1", "80", 0, 0⟩], 0, 0⟩,
          [], [none], CacheLoad.absent⟩).2.2 =
      [Ev.gotProxy "1.1.1.1" "80", Ev.fetchProxied "1.1.1.1" "80" none,
       Ev.markedFailed "1.1.1.1" "80"] :=
  ⟨rfl, by decide⟩

/-! ## Claim C2: the worker pool processes every pending resource exactly once -/

/-- The items contributed by one worker slot. -/
def wItems : WStatus → List String
  | WStatus.processing x => [x]
  | _ => []

theorem inFlight_cons (v : WStatus) (t : List WStatus) :
    inFlight (v :: t) = wItems v ++ inFlight t := by
  cases v <;> rfl

/-- Coercion of list append into multisets. -/
theorem coe_append (l₁ l₂ : List String) :
    (↑(l₁ ++ l₂) : Multiset String) = ↑l₁ + ↑l₂ := rfl

/-- Updating one worker slot exchanges that slot's contribution inside
the in-flight collection. -/
theorem inFlight_set (ws : List WStatus) : ∀ (i : Nat) (w w' : WStatus),
    ws[i]? = some w →
    (inFlight (ws.set i w') : Multiset String) + (wItems w : Multiset String)
      = (wItems w' : Multiset String) + (inFlight ws : Multiset String) := by
  induction ws with
  | nil => intro i w w' h; simp at h
  | cons v t ih =>
    intro i w w' h
    rcases i with _ | i
    · simp only [List.getElem?_cons_zero, Option.some.injEq] at h
      subst h
      rw [List.set_cons_zero, inFlight_cons, inFlight_cons, coe_append, coe_append]
      simp only [coe_append, Multiset.coe_singleton, add_comm, add_left_comm, add_assoc]
    · simp only [List.getElem?_cons_succ] at h
      rw [List.set_cons_succ, inFlight_cons, inFlight_cons, coe_append, coe_append]
      rw [add_assoc, ih i w w' h]
      simp only [coe_append, Multiset.coe_singleton, add_comm, add_left_comm, add_assoc]

/-- The pool invariant: every pending resource is in exactly one place —
queue, some worker, or the results — and once any worker has exited the
queue is empty forever. -/
def PoolInv (pending : List String) (s : PoolSt) : Prop :=
  ((s.queue : Multiset String) + (inFlight s.workers : Multiset String) +
    (s.results : Multiset String) = (pending : Multiset String))
  ∧ (WStatus.finished ∈ s.workers → s.queue = [])

theorem poolInv_init (concurrency : Nat) (pending : List String) :
    PoolInv pending (poolInit concurrency pending) := by
  constructor
  · simp [poolInit, inFlight, List.filterMap_replicate]
  · intro h
    simp only [poolInit, List.mem_replicate] at h
    exact absurd h.2 (by simp)

theorem poolInv_step (pending : List String) (s s' : PoolSt)
    (hstep : PoolStep s s') (hinv : PoolInv pending s) : PoolInv pending s' := by
  rcases hinv with ⟨h1, h2⟩
  cases hstep with
  | pop i x q hw hq =>
    have hset := inFlight_set s.workers i WStatus.idle (WStatus.processing x) hw
    simp only [wItems] at hset
    rw [show ((([] : List String) : Multiset String)) = 0 from rfl, add_zero] at hset
    constructor
    · rw [hq] at h1
      simp only
      rw [hset]
      rw [← h1]
      rw [show (((x :: q : List String)) : Multiset String) = ↑([x] ++ q) from rfl,
        coe_append]
      simp only [coe_append, Multiset.coe_singleton, add_comm, add_left_comm, add_assoc]
    · intro hfin
      rcases List.mem_or_eq_of_mem_set hfin with hmem | habs
      · rw [h2 hmem] at hq
        exact absurd hq (by simp)
      · exact absurd habs (by simp)
  | finish i x hw =>
    have hset := inFlight_set s.workers i (WStatus.processing x) WStatus.idle hw
    simp only [wItems] at hset
    rw [show ((([] : List String) : Multiset String)) = 0 from rfl, zero_add] at hset
    constructor
    · simp only
      rw [coe_append, ← h1, ← hset]
      simp only [coe_append, Multiset.coe_singleton, add_comm, add_left_comm, add_assoc]
    · intro hfin
      rcases List.mem_or_eq_of_mem_set hfin with hmem | habs
      · exact h2 hmem
      · exact absurd habs (by simp)
  | exit i hw hq =>
    have hset := inFlight_set s.workers i WStatus.idle WStatus.finished hw
    simp only [wItems] at hset
    rw [show ((([] : List String) : Multiset String)) = 0 from rfl, add_zero, zero_add] at hset
    exact ⟨by rw [← h1]; simp only; rw [hset], fun _ => hq⟩

theorem poolInv_reach (pending : List String) (s s' : PoolSt)
    (hreach : PoolReach s s') (hinv : PoolInv pending s) : PoolInv pending s' := by
  induction hreach with
  | refl => exact hinv
  | tail _ hstep ih => exact poolInv_step pending _ _ hstep ih

theorem inFlight_done (ws : List WStatus) (h : ∀ w ∈ ws, w = WStatus.finished) :
    inFlight ws = [] := by
  induction ws with
  | nil => rfl
  | cons v t ih =>
    rw [inFlight_cons, h v (List.mem_cons_self _ _)]
    exact ih (fun w hw => h w (List.mem_cons_of_mem _ hw))

theorem poolReach_workers_length (t u : PoolSt) (hr : PoolReach t u) :
    t.workers.length = u.workers.length := by
  induction hr with
  | refl => rfl
  | tail _ hstep ih =>
    rw [ih]
    cases hstep with
    | pop i x q hw hq => simp
    | finish i x hw => simp
    | exit i hw hq => simp

/-- Claim C2 (confirmed): for concurrency `C > 0`, the pool starts exactly
`min(C, N)` workers, and in every terminal interleaving the results
collection is a permutation of the pending queue — `N` entries, one per
pending resource, none processed twice, none dropped. -/
theorem worker_pool_complete (C : Nat) (pending : List String) (s : PoolSt)
    (hC : 0 < C)
    (hreach : PoolReach (poolInit C pending) s)
    (hdone : PoolDone s) :
    s.results.Perm pending ∧ s.results.length = pending.length ∧
    (poolInit C pending).workers.length = min C pending.length := by
  have hinv := poolInv_reach pending _ s hreach (poolInv_init C pending)
  rcases hinv with ⟨h1, h2⟩
  have hlen : s.workers.length = min C pending.length := by
    have hl := poolReach_workers_length _ _ hreach
    rw [← hl]
    simp [poolInit]
  have hflight : inFlight s.workers = [] := inFlight_done s.workers hdone
  have hqueue : s.queue = [] := by
    rcases hws : s.workers with _ | ⟨w, rest⟩
    · rw [hws] at hlen
      simp only [List.length_nil] at hlen
      have hpe : pending = [] := by
        rcases pending with _ | ⟨p, ps⟩
        · rfl
        · exfalso
          simp only [List.length_cons] at hlen
          omega
      subst hpe
      rw [hws] at h1
      simp only [inFlight, List.filterMap_nil] at h1
      simp at h1
      exact h1.1
    · have hfin : WStatus.finished ∈ s.workers := by
        have hwv := hdone w (by rw [hws]; exact List.mem_cons_self _ _)
        rw [hws, ← hwv]
        exact List.mem_cons_self _ _
      exact h2 hfin
  rw [hqueue, hflight] at h1
  have hperm : s.results.Perm pending := by
    apply Multiset.coe_eq_coe.mp
    simpa using h1
  exact ⟨hperm, hperm.length_eq, by simp [poolInit]⟩

/-- Witness for C2: one worker drains a single-element queue — pop,
record, exit — and the terminal results are exactly the pending list. -/
theorem worker_pool_complete_witness :
    (PoolSt.mk [] ["a"] [WStatus.finished]).results.Perm ["a"]
    ∧ (PoolSt.mk [] ["a"] [WStatus.finished]).results.length = (["a"] : List String).length
    ∧ (poolInit 1 ["a"]).workers.length = min 1 (["a"] : List String).length :=
  worker_pool_complete 1 ["a"] (PoolSt.mk [] ["a"] [WStatus.finished]) (by decide)
    (Relation.ReflTransGen.head (PoolStep.pop _ 0 "a" [] rfl rfl)
      (Relation.ReflTransGen.head (PoolStep.finish _ 0 "a" rfl)
        (Relation.ReflTransGen.head (PoolStep.exit _ 0 rfl rfl)
          Relation.ReflTransGen.refl)))
    (by intro w hw; simpa using hw)

/-! ## Claim C8: an invalid root aborts — but after the in-progress marker -/

/-- `createProgressFile` either throws into its own catch (emitting
nothing) or writes the marker and emits `wroteProgress`. -/
theorem createProgressFile_spec (env : Env) (st : St) :
    ((createProgressFile env st).2 = [] ∧ env.writeFails progressFlag = true) ∨
    ((createProgressFile env st).2 = [Ev.wroteProgress] ∧
      env.writeFails progressFlag = false ∧
      (createProgressFile env st).1.fs.present progressFlag = true) := by
  unfold createProgressFile
  by_cases hw : env.writeFails progressFlag = true
  · rw [if_pos hw]
    exact Or.inl ⟨rfl, hw⟩
  · rw [if_neg hw]
    refine Or.inr ⟨rfl, by simpa using hw, ?_⟩
    simp [fsSet]

/-- Claim C8 (amended): when the root does not exist, is not a directory,
or yields no candidate files, the run exits with code 1 and no processing
starts (the only possible event is the progress-marker write) — but the
in-progress marker has already been written at that point and is left
behind (whenever its write didn't itself throw). -/
theorem invalid_root_aborts (env : Env) (cfg : Config) (processId : String)
    (rootExists rootIsDir : Bool) (imageFiles : List String) (st : St)
    (hinval : rootExists = false ∨ rootIsDir = false ∨ imageFiles = []) :
    (mainRun env cfg processId rootExists rootIsDir imageFiles st).1 = MainOut.exited 1
    ∧ (∀ e ∈ (mainRun env cfg processId rootExists rootIsDir imageFiles st).2.2,
        e = Ev.wroteProgress)
    ∧ (env.writeFails progressFlag = false →
        Ev.wroteProgress ∈ (mainRun env cfg processId rootExists rootIsDir imageFiles st).2.2
        ∧ (mainRun env cfg processId rootExists rootIsDir imageFiles st).2.1.fs.present
            progressFlag = true) := by
  unfold mainRun
  rcases hcp : createProgressFile env (if cfg.useProxy then pmInit env st else st)
    with ⟨st₂, tr₂⟩
  have hspec := createProgressFile_spec env (if cfg.useProxy then pmInit env st else st)
  rw [hcp] at hspec
  simp only at hspec
  have hleaf : ∀ (res : MainOut × St × List Ev), res = (MainOut.exited 1, st₂, tr₂) →
      res.1 = MainOut.exited 1
      ∧ (∀ e ∈ res.2.2, e = Ev.wroteProgress)
      ∧ (env.writeFails progressFlag = false →
          Ev.wroteProgress ∈ res.2.2 ∧ res.2.1.fs.present progressFlag = true) := by
    rintro res rfl
    refine ⟨rfl, ?_, ?_⟩
    · intro e he
      rcases hspec with ⟨h0, -⟩ | ⟨h1, -, -⟩
      · rw [h0] at he
        simp at he
      · rw [h1] at he
        simpa using he
    · intro hpw
      rcases hspec with ⟨-, h0⟩ | ⟨h1, -, h2⟩
      · rw [hpw] at h0
        exact absurd h0 (by simp)
      · exact ⟨by rw [h1]; simp, h2⟩
  cases rootExists with
  | false => exact hleaf _ (by simp [hcp])
  | true =>
    cases rootIsDir with
    | false => exact hleaf _ (by simp [hcp])
    | true =>
      have himg : imageFiles = [] := by
        rcases hinval with h | h | h
        · exact absurd h (by simp)
        · exact absurd h (by simp)
        · exact h
      subst himg
      exact hleaf _ (by simp [hcp])

/-- Witness for the amended C8 at a concrete world: missing root, benign
filesystem — exit code 1, only the progress write in the trace, marker
present. -/
theorem invalid_root_aborts_witness :
    (mainRun ⟨0, fun _ => false, fun _ => false, fun _ => false, fun _ => false⟩
        ⟨5, 3000, ["png"], 30, false, 30, 3, 1800000⟩ "pid" false true []
        ⟨⟨fun _ => false, fun _ => 0⟩, ⟨[], 0, 0⟩, [], [], CacheLoad.absent⟩).1 =
      MainOut.exited 1
    ∧ (∀ e ∈ (mainRun ⟨0, fun _ => false, fun _ => false, fun _ => false, fun _ => false⟩
        ⟨5, 3000, ["png"], 30, false, 30, 3, 1800000⟩ "pid" false true []
        ⟨⟨fun _ => false, fun _ => 0⟩, ⟨[], 0, 0⟩, [], [], CacheLoad.absent⟩).2.2,
        e = Ev.wroteProgress)
    ∧ ((⟨0, fun _ => false, fun _ => false, fun _ => false, fun _ => false⟩ : Env).writeFails
          progressFlag = false →
        Ev.wroteProgress ∈ (mainRun ⟨0, fun _ => false, fun _ => false, fun _ => false, fun _ => false⟩
          ⟨5, 3000, ["png"], 30, false, 30, 3, 1800000⟩ "pid" false true []
          ⟨⟨fun _ => false, fun _ => 0⟩, ⟨[], 0, 0⟩, [], [], CacheLoad.absent⟩).2.2
        ∧ (mainRun ⟨0, fun _ => false, fun _ => false, fun _ => false, fun _ => false⟩
          ⟨5, 3000, ["png"], 30, false, 30, 3, 1800000⟩ "pid" false true []
          ⟨⟨fun _ => false, fun _ => 0⟩, ⟨[], 0, 0⟩, [], [],
            CacheLoad.absent⟩).2.1.fs.present progressFlag = true) :=
  invalid_root_aborts ⟨0, fun _ => false, fun _ => false, fun _ => false, fun _ => false⟩
    ⟨5, 3000, ["png"], 30, false, 30, 3, 1800000⟩ "pid" false true []
    ⟨⟨fun _ => false, fun _ => 0⟩, ⟨[], 0, 0⟩, [], [], CacheLoad.absent⟩
    (Or.inl rfl)

/-- Claim C8 (counterexample): with a nonexistent root the process exits 1,
but the in-progress marker has already been written — `wroteProgress` is
in the trace and the flag file is present at exit — refuting "aborts
before writing any in-progress marker". -/
theorem abort_after_progress_marker :
    (mainRun ⟨0, fun _ => false, fun _ => false, fun _ => false, fun _ => false⟩
        ⟨5, 3000, ["png"], 30, false, 30, 3, 1800000⟩ "pid" false true []
        ⟨⟨fun _ => false, fun _ => 0⟩, ⟨[], 0, 0⟩, [], [], CacheLoad.absent⟩).1 =
      MainOut.exited 1
    ∧ Ev.wroteProgress ∈ (mainRun ⟨0, fun _ => false, fun _ => false, fun _ => false, fun _ => false⟩
        ⟨5, 3000, ["png"], 30, false, 30, 3, 1800000⟩ "pid" false true []
        ⟨⟨fun _ => false, fun _ => 0⟩, ⟨[], 0, 0⟩, [], [], CacheLoad.absent⟩).2.2
    ∧ (mainRun ⟨0, fun _ => false, fun _ => false, fun _ => false, fun _ => false⟩
        ⟨5, 3000, ["png"], 30, false, 30, 3, 1800000⟩ "pid" false true []
        ⟨⟨fun _ => false, fun _ => 0⟩, ⟨[], 0, 0⟩, [], [],
          CacheLoad.absent⟩).2.1.fs.present progressFlag = true :=
  ⟨by decide, by decide, by decide⟩

end OpenlOcr
